/-
Verification of the OCR pipeline's core orchestration logic
(`backend/main.py`, `backend/convert_pdf_end_to_end.py`) against its
natural-language specification.

The Python source is shallowly embedded: pure fragments become Lean
functions, real time becomes explicit rational timestamps, the file
system and the external PDF/LLM backends become oracles passed as
arguments, and regular-expression rewriting becomes deterministic
character-list scanners mirroring the Python regex semantics.
-/
import Mathlib

set_option maxRecDepth 20000

namespace OCRSpec

/-! ## RateLimiter (`backend/main.py`, `RateLimiter.acquire`, lines 45-68)

The deque of admission timestamps is a `List ℚ` (oldest first, as in the
Python deque where `popleft` removes the oldest).  Real time is modelled
exactly: `time.sleep(s)` advances the clock by `s` and nothing else
advances it between the bookkeeping steps of one call, and the
`with self.lock:` block serialises calls, so a run is a fold over the
serialized call sequence.  The `acquire` call of the k+1-st caller
happens at `admitTime_k + gap` for a caller-chosen delay `gap ≥ 0`. -/

/-- The eviction loop `while self.requests and self.requests[0] <= now - self.time_window:
self.requests.popleft()` — pops from the front while the head is stale. -/
def evictQ (W now : ℚ) (q : List ℚ) : List ℚ :=
  q.dropWhile (fun t => decide (t ≤ now - W))

structure AcqOut where
  admitTime : ℚ
  queue : List ℚ
  deriving Repr, DecidableEq

/-- `RateLimiter.acquire`, entered at wall-clock time `now` with pending
timestamp queue `q`.  In the full-window branch the code computes
`sleep_time = self.requests[0] + self.time_window - now`, sleeps when it is
positive, re-reads the clock, evicts again and records the new `now`.
(The `[] => ⟨now, [now]⟩` arm is unreachable for `max_requests ≥ 1`;
the Python would raise an `IndexError` there for `max_requests = 0`.) -/
def acquire (R : ℕ) (W now : ℚ) (q : List ℚ) : AcqOut :=
  let q1 := evictQ W now q
  if R ≤ q1.length then
    match q1 with
    | [] => ⟨now, [now]⟩
    | oldest :: rest =>
      let sleepTime := oldest + W - now
      let now2 := if 0 < sleepTime then now + sleepTime else now
      let q2 := evictQ W now2 (oldest :: rest)
      ⟨now2, q2 ++ [now2]⟩
  else ⟨now, q1 ++ [now]⟩

/-- The admission timestamps recorded by a serialized sequence of
`acquire()` calls: the next call arrives `g` seconds (`g ≥ 0`) after the
previous admission. -/
def runAdmissions (R : ℕ) (W : ℚ) : ℚ → List ℚ → List ℚ → List ℚ
  | _, _, [] => []
  | now, q, g :: gs =>
    let a := acquire R W (now + g) q
    a.admitTime :: runAdmissions R W a.admitTime a.queue gs

/-- Sliding-window bound: any two admissions at least `R` positions apart
are at least `W` seconds apart. -/
def WindowProp (R : ℕ) (W : ℚ) (A : List ℚ) : Prop :=
  ∀ (i j : ℕ) (hi : i < A.length) (hj : j < A.length),
    i + R ≤ j → A[i] + W ≤ A[j]

/-- Run invariant: `A` is the full (sorted) admission history, all of it
in the past, `q` is a suffix of `A` whose dropped prefix is stale, the
queue never exceeds `R` entries, and the window property holds. -/
def RLInv (R : ℕ) (W now : ℚ) (A q : List ℚ) : Prop :=
  A.Sorted (· ≤ ·) ∧
  (∀ t ∈ A, t ≤ now) ∧
  (∃ d, A = d ++ q ∧ ∀ t ∈ d, t ≤ now - W) ∧
  q.length ≤ R ∧
  WindowProp R W A

lemma dropWhile_head_not {p : ℚ → Bool} :
    ∀ {l : List ℚ} {a : ℚ} {r : List ℚ}, l.dropWhile p = a :: r → p a = false := by
  intro l
  induction l with
  | nil => intro a r h; simp [List.dropWhile] at h
  | cons x xs ih =>
    intro a r h
    by_cases hx : p x
    · rw [List.dropWhile_cons_of_pos hx] at h
      exact ih h
    · rw [List.dropWhile_cons_of_neg hx] at h
      cases h
      exact Bool.eq_false_iff.mpr hx

lemma evictQ_head_not_stale {W now : ℚ} {q : List ℚ} {o : ℚ} {r : List ℚ}
    (h : evictQ W now q = o :: r) : now - W < o := by
  have := @dropWhile_head_not (fun t => decide (t ≤ now - W)) q o r h
  simp at this
  linarith

lemma evictQ_split (W now : ℚ) (q : List ℚ) :
    ∃ d, q = d ++ evictQ W now q ∧ ∀ t ∈ d, t ≤ now - W := by
  refine ⟨q.takeWhile (fun t => decide (t ≤ now - W)), ?_, ?_⟩
  · exact (List.takeWhile_append_dropWhile _ q).symm
  · intro t ht
    have := List.mem_takeWhile_imp ht
    simpa using this

lemma evictQ_sublist (W now : ℚ) (q : List ℚ) : (evictQ W now q).Sublist q :=
  List.dropWhile_sublist _

lemma evictQ_sorted {W now : ℚ} {q : List ℚ} (h : q.Sorted (· ≤ ·)) :
    (evictQ W now q).Sorted (· ≤ ·) :=
  h.sublist (evictQ_sublist W now q)

lemma evictQ_mem_fresh {W now : ℚ} {q : List ℚ} (hs : q.Sorted (· ≤ ·)) :
    ∀ t ∈ evictQ W now q, now - W < t := by
  cases h : evictQ W now q with
  | nil => intro t ht; simp at ht
  | cons o r =>
    have ho : now - W < o := evictQ_head_not_stale h
    have hsorted : (o :: r).Sorted (· ≤ ·) := h ▸ evictQ_sorted hs
    intro t ht
    rcases List.mem_cons.mp ht with rfl | hmem
    · exact ho
    · have : o ≤ t := (List.sorted_cons.mp hsorted).1 t hmem
      linarith

lemma acquire_step {R : ℕ} {W now g : ℚ} {A q : List ℚ}
    (hR : 1 ≤ R) (hW : 0 < W) (hg : 0 ≤ g) (hInv : RLInv R W now A q) :
    RLInv R W (acquire R W (now + g) q).admitTime
      (A ++ [(acquire R W (now + g) q).admitTime]) (acquire R W (now + g) q).queue := by
  obtain ⟨hsort, hub, ⟨d, hdA, hdst⟩, hqlen, hwp⟩ := hInv
  have hqs : q.Sorted (· ≤ ·) := hsort.sublist (hdA ▸ List.sublist_append_right d q)
  set now' := now + g with hnow'
  have hnn' : now ≤ now' := by simp [hnow']; linarith
  obtain ⟨d2, hq12, hd2st⟩ := evictQ_split W now' q
  have hq1s : (evictQ W now' q).Sorted (· ≤ ·) := evictQ_sorted hqs
  have hq1fresh := @evictQ_mem_fresh W now' q hqs
  have hq1len : (evictQ W now' q).length ≤ R :=
    le_trans (List.Sublist.length_le (evictQ_sublist W now' q)) hqlen
  by_cases hfull : R ≤ (evictQ W now' q).length
  · -- full-window branch: the caller sleeps until `oldest + W`
    obtain ⟨o, rest, hor⟩ : ∃ o rest, evictQ W now' q = o :: rest := by
      cases hcase : evictQ W now' q with
      | nil => rw [hcase] at hfull; simp at hfull; omega
      | cons o rest => exact ⟨o, rest, rfl⟩
    have ho_fresh : now' - W < o := evictQ_head_not_stale hor
    have hsleep : 0 < o + W - now' := by linarith
    have hacq : acquire R W now' q =
        ⟨o + W, evictQ W (o + W) (o :: rest) ++ [o + W]⟩ := by
      unfold acquire
      rw [hor]
      rw [hor] at hfull
      rw [if_pos hfull]
      simp only [if_pos hsleep]
      have : now' + (o + W - now') = o + W := by ring
      rw [this]
    rw [hacq]
    simp only
    -- the head `o` itself is evicted after the sleep
    have hq2 : evictQ W (o + W) (o :: rest) = evictQ W (o + W) rest := by
      unfold evictQ
      rw [List.dropWhile_cons_of_pos]
      simp
    have hrestlen : rest.length + 1 = (evictQ W now' q).length := by rw [hor]; simp
    obtain ⟨d3, hq23, hd3st⟩ := evictQ_split W (o + W) (o :: rest)
    have hubA : ∀ t ∈ A, t ≤ o + W := fun t ht => le_trans (hub t ht) (by linarith)
    rw [hq2] at hq23
    refine ⟨?_, ?_, ?_, ?_, ?_⟩
    · exact List.pairwise_append.mpr ⟨hsort, List.sorted_singleton _,
        fun a ha b hb => by rw [List.mem_singleton] at hb; exact hb ▸ hubA a ha⟩
    · intro t ht
      rcases List.mem_append.mp ht with h1 | h1
      · exact hubA t h1
      · rw [List.mem_singleton] at h1; exact le_of_eq h1
    · refine ⟨d ++ d2 ++ d3, ?_, ?_⟩
      · rw [hq2, hdA, hq12, hor, hq23]
        simp [List.append_assoc]
      · intro t ht
        simp only [List.mem_append] at ht
        rcases ht with (h1 | h1) | h1
        · have := hdst t h1; linarith
        · have := hd2st t h1; simp at this; linarith
        · have := hd3st t h1; simp at this; linarith
    · have : (evictQ W (o + W) (o :: rest)).length ≤ rest.length := by
        rw [hq2]; exact List.Sublist.length_le (evictQ_sublist _ _ _)
      simp only [List.length_append, List.length_singleton]
      omega
    · -- window property including the freshly appended admission
      intro i j hi hj hij
      have hjlen : j < A.length + 1 := by simpa using hj
      by_cases hjA : j < A.length
      · have hiA : i < A.length := by omega
        rw [List.getElem_append_left hjA, List.getElem_append_left hiA]
        exact hwp i j hiA hjA hij
      · have hjlast : j = A.length := by omega
        rw [List.getElem_concat_length _ _ _ hjlast]
        -- `o` sits at index `(d ++ d2).length` in `A`, and `i` is at or before it
        have hAo : A = (d ++ d2) ++ (o :: rest) := by
          rw [hdA, hq12, hor]; simp [List.append_assoc]
        have hAlen : A.length = (d ++ d2).length + rest.length + 1 := by
          rw [hAo]; simp; omega
        have hio : (d ++ d2).length < A.length := by omega
        have hgeto : A[(d ++ d2).length] = o := by
          rw [List.getElem_of_eq hAo, List.getElem_append_right (le_refl _)]
          simp
        have hiA : i < A.length := by omega
        have hile : i ≤ (d ++ d2).length := by
          have : (evictQ W now' q).length ≤ R := hq1len
          omega
        have hmono : A[i] ≤ A[(d ++ d2).length] := by
          have hfle : (⟨i, hiA⟩ : Fin A.length) ≤ ⟨(d ++ d2).length, hio⟩ := by
            simpa using hile
          have := hsort.rel_get_of_le hfle
          simpa using this
        rw [hgeto] at hmono
        rw [List.getElem_append_left hiA]
        linarith
  · -- free-slot branch: admitted immediately at arrival time
    have hacq : acquire R W now' q = ⟨now', evictQ W now' q ++ [now']⟩ := by
      unfold acquire
      rw [if_neg hfull]
    rw [hacq]
    simp only
    have hubA : ∀ t ∈ A, t ≤ now' := fun t ht => le_trans (hub t ht) hnn'
    refine ⟨?_, ?_, ?_, ?_, ?_⟩
    · exact List.pairwise_append.mpr ⟨hsort, List.sorted_singleton _,
        fun a ha b hb => by rw [List.mem_singleton] at hb; exact hb ▸ hubA a ha⟩
    · intro t ht
      rcases List.mem_append.mp ht with h1 | h1
      · exact hubA t h1
      · rw [List.mem_singleton] at h1; exact le_of_eq h1
    · refine ⟨d ++ d2, ?_, ?_⟩
      · have hrw : A ++ [now'] = (d ++ (d2 ++ evictQ W now' q)) ++ [now'] := by
          rw [← hq12, ← hdA]
        rw [hrw]
        simp [List.append_assoc]
      · intro t ht
        rcases List.mem_append.mp ht with h1 | h1
        · have := hdst t h1; linarith
        · have := hd2st t h1; simp at this; linarith
    · simp only [List.length_append, List.length_singleton]
      omega
    · intro i j hi hj hij
      have hjlen : j < A.length + 1 := by simpa using hj
      by_cases hjA : j < A.length
      · have hiA : i < A.length := by omega
        rw [List.getElem_append_left hjA, List.getElem_append_left hiA]
        exact hwp i j hiA hjA hij
      · have hjlast : j = A.length := by omega
        rw [List.getElem_concat_length _ _ _ hjlast]
        have hAq1 : A = (d ++ d2) ++ evictQ W now' q := by
          conv_lhs => rw [hdA, hq12]
          simp [List.append_assoc]
        have hAlen : A.length = (d ++ d2).length + (evictQ W now' q).length := by
          rw [hAq1]; simp; omega
        have hiA : i < A.length := by omega
        have hilt : i < (d ++ d2).length := by
          push_neg at hfull
          omega
        rw [List.getElem_append_left hiA]
        have hmem : A[i] ∈ d ++ d2 := by
          have h2 : A[i] = (d ++ d2)[i] := by
            rw [List.getElem_of_eq hAq1, List.getElem_append_left hilt]
          rw [h2]
          exact List.getElem_mem _
        rcases List.mem_append.mp hmem with h1 | h1
        · have := hdst _ h1; linarith
        · have := hd2st _ h1; simp at this; linarith

lemma runAdmissions_inv {R : ℕ} {W : ℚ} (hR : 1 ≤ R) (hW : 0 < W) :
    ∀ (gaps : List ℚ), (∀ g ∈ gaps, 0 ≤ g) → ∀ (now : ℚ) (A q : List ℚ),
      RLInv R W now A q →
      (A ++ runAdmissions R W now q gaps).Sorted (· ≤ ·) ∧
      WindowProp R W (A ++ runAdmissions R W now q gaps) := by
  intro gaps
  induction gaps with
  | nil =>
    intro _ now A q hInv
    simpa [runAdmissions] using ⟨hInv.1, hInv.2.2.2.2⟩
  | cons g gs ih =>
    intro hg now A q hInv
    have hstep := acquire_step hR hW (hg g (by simp)) hInv
    have hrw : A ++ runAdmissions R W now q (g :: gs) =
        (A ++ [(acquire R W (now + g) q).admitTime]) ++
          runAdmissions R W (acquire R W (now + g) q).admitTime
            (acquire R W (now + g) q).queue gs := by
      simp [runAdmissions, List.append_assoc]
    rw [hrw]
    exact ih (fun x hx => hg x (by simp [hx])) _ _ _ hstep

lemma countP_exists_index (p : ℚ → Bool) :
    ∀ (A : List ℚ) (k : ℕ), k + 1 ≤ A.countP p →
      ∃ (j : ℕ) (hj : j < A.length), k ≤ j ∧ p A[j] = true := by
  intro A
  induction A with
  | nil => intro k h; rw [List.countP_nil] at h; omega
  | cons a A' ih =>
    intro k h
    rw [List.countP_cons] at h
    by_cases hpa : p a = true
    · cases k with
      | zero => exact ⟨0, by simp, le_refl _, by simpa using hpa⟩
      | succ k' =>
        have : k' + 1 ≤ A'.countP p := by simp [hpa] at h; omega
        obtain ⟨j', hj', hk', hp'⟩ := ih k' this
        exact ⟨j' + 1, by simp; omega, by omega, by simpa using hp'⟩
    · have : k + 1 ≤ A'.countP p := by simp [hpa] at h; omega
      obtain ⟨j', hj', hk', hp'⟩ := ih k this
      exact ⟨j' + 1, by simp; omega, by omega, by simpa using hp'⟩

lemma countP_two_indices (R : ℕ) (p : ℚ → Bool) :
    ∀ (A : List ℚ), R + 1 ≤ A.countP p →
      ∃ (i j : ℕ) (hi : i < A.length) (hj : j < A.length),
        i + R ≤ j ∧ p A[i] = true ∧ p A[j] = true := by
  intro A
  induction A with
  | nil => intro h; rw [List.countP_nil] at h; omega
  | cons a A' ih =>
    intro h
    by_cases hpa : p a = true
    · obtain ⟨j, hj, hk, hp⟩ := countP_exists_index p (a :: A') R h
      exact ⟨0, j, by simp, hj, by omega, by simpa using hpa, hp⟩
    · rw [List.countP_cons] at h
      have : R + 1 ≤ A'.countP p := by simp [hpa] at h; omega
      obtain ⟨i, j, hi, hj, hij, hp1, hp2⟩ := ih this
      exact ⟨i + 1, j + 1, by simp; omega, by simp; omega, by omega,
        by simpa using hp1, by simpa using hp2⟩

lemma window_count {R : ℕ} {W : ℚ} {A : List ℚ}
    (hs : A.Sorted (· ≤ ·)) (hwp : WindowProp R W A) (s : ℚ) :
    A.countP (fun t => decide (s < t) && decide (t ≤ s + W)) ≤ R := by
  by_contra hcon
  push_neg at hcon
  obtain ⟨i, j, hi, hj, hij, hp1, hp2⟩ :=
    countP_two_indices R (fun t => decide (s < t) && decide (t ≤ s + W)) A (by omega)
  simp only [Bool.and_eq_true, decide_eq_true_eq] at hp1 hp2
  have := hwp i j hi hj hij
  linarith [hp1.1, hp2.2]

lemma acquire_short_eq {R : ℕ} {W now : ℚ} {q : List ℚ}
    (h : (evictQ W now q).length < R) :
    acquire R W now q = ⟨now, evictQ W now q ++ [now]⟩ := by
  unfold acquire
  rw [if_neg (by omega)]

lemma acquire_full_eq {R : ℕ} {W now : ℚ} {q : List ℚ} {o : ℚ} {rest : List ℚ}
    (h : evictQ W now q = o :: rest) (hfull : R ≤ (o :: rest).length) :
    0 < o + W - now ∧
      acquire R W now q = ⟨o + W, evictQ W (o + W) (o :: rest) ++ [o + W]⟩ := by
  have hfresh : now - W < o := evictQ_head_not_stale h
  have hpos : 0 < o + W - now := by linarith
  refine ⟨hpos, ?_⟩
  unfold acquire
  rw [h, if_pos hfull]
  simp only [if_pos hpos]
  have harith : now + (o + W - now) = o + W := by ring
  rw [harith]

/-- **C1.** For every `RateLimiter(max_requests = R ≥ 1, time_window = W > 0)`
and every serialized sequence of `acquire()` calls (the internal lock is held
across each call), the recorded admission times satisfy: every time interval
of length `W` (here: every half-open interval `(s, s + W]`) contains at most
`R` admissions; a caller that finds fewer than `R` admissions in the trailing
window is admitted at its arrival time without sleeping; a caller that finds
`R` (the queue can never hold more) sleeps exactly
`sleep_time = oldest + W - now > 0` and is admitted at `oldest + W`. -/
theorem rateLimiter_sliding_window_admission (R : ℕ) (W t0 : ℚ) (gaps : List ℚ)
    (hR : 1 ≤ R) (hW : 0 < W) (hg : ∀ g ∈ gaps, 0 ≤ g) :
    (∀ s : ℚ, (runAdmissions R W t0 [] gaps).countP
        (fun t => decide (s < t) && decide (t ≤ s + W)) ≤ R) ∧
    (∀ (now : ℚ) (q : List ℚ), (evictQ W now q).length < R →
        acquire R W now q = ⟨now, evictQ W now q ++ [now]⟩) ∧
    (∀ (now : ℚ) (q : List ℚ) (o : ℚ) (rest : List ℚ),
        evictQ W now q = o :: rest → R ≤ (o :: rest).length →
        0 < o + W - now ∧
          acquire R W now q = ⟨o + W, evictQ W (o + W) (o :: rest) ++ [o + W]⟩) := by
  refine ⟨?_, fun now q h => acquire_short_eq h,
    fun now q o rest h hfull => acquire_full_eq h hfull⟩
  intro s
  have hInv0 : RLInv R W t0 [] [] := by
    refine ⟨List.sorted_nil, by simp, ⟨[], by simp, by simp⟩, by simp, ?_⟩
    intro i j hi hj hij
    simp at hj
  have := runAdmissions_inv hR hW gaps hg t0 [] [] hInv0
  rw [List.nil_append] at this
  exact window_count this.1 this.2 s

/-- Witness for C1 at `R = 1`, `W = 1`, start time `0`, two immediate calls. -/
theorem rateLimiter_sliding_window_admission_witness :
    (∀ s : ℚ, (runAdmissions 1 1 0 [] [0, 0]).countP
        (fun t => decide (s < t) && decide (t ≤ s + 1)) ≤ 1) ∧
    (∀ (now : ℚ) (q : List ℚ), (evictQ 1 now q).length < 1 →
        acquire 1 1 now q = ⟨now, evictQ 1 now q ++ [now]⟩) ∧
    (∀ (now : ℚ) (q : List ℚ) (o : ℚ) (rest : List ℚ),
        evictQ 1 now q = o :: rest → 1 ≤ (o :: rest).length →
        0 < o + 1 - now ∧
          acquire 1 1 now q = ⟨o + 1, evictQ 1 (o + 1) (o :: rest) ++ [o + 1]⟩) :=
  rateLimiter_sliding_window_admission 1 1 0 [0, 0] (by decide) (by norm_num)
    (by intro g hg; fin_cases hg <;> norm_num)

/-! ## Lock discipline of `RateLimiter.acquire` (`backend/main.py`, lines 50-68)

The body of `acquire` is a single `with self.lock:` block: lock
acquisition, the eviction pass, the conditional `time.sleep`, the
post-sleep eviction pass and the `append` all happen before the lock is
released.  `acquireTrace` records that sequence of events. -/

inductive RLAction where
  | lockAcq
  | lockRel
  | evictPass
  | sleep (duration : ℚ)
  | record (t : ℚ)
  deriving Repr, DecidableEq

def isSleepAction : RLAction → Bool
  | RLAction.sleep _ => true
  | _ => false

def isLockAcq : RLAction → Bool
  | RLAction.lockAcq => true
  | _ => false

def isLockRel : RLAction → Bool
  | RLAction.lockRel => true
  | _ => false

/-- Event trace of one `acquire()` call, mirroring the control flow of the
source: the `with self.lock:` block wraps everything, including the sleep. -/
def acquireTrace (R : ℕ) (W now : ℚ) (q : List ℚ) : List RLAction :=
  let q1 := evictQ W now q
  [RLAction.lockAcq, RLAction.evictPass] ++
    (if R ≤ q1.length then
      match q1 with
      | [] => []
      | oldest :: _ =>
        let sleepTime := oldest + W - now
        (if 0 < sleepTime then [RLAction.sleep sleepTime] else []) ++
          [RLAction.evictPass]
    else []) ++
    [RLAction.record (acquire R W now q).admitTime, RLAction.lockRel]

/-- The lock is held just before executing the action at index `i`. -/
def lockHeldAt (tr : List RLAction) (i : ℕ) : Prop :=
  (tr.take i).countP isLockRel < (tr.take i).countP isLockAcq

instance (tr : List RLAction) (i : ℕ) : Decidable (lockHeldAt tr i) := by
  unfold lockHeldAt; infer_instance

/-- The property claimed by the spec: any sleep during `acquire` happens
while the internal mutex is **not** held. -/
def SleepOutsideLock (tr : List RLAction) : Prop :=
  ∀ i, (hi : i < tr.length) → isSleepAction tr[i] = true → ¬ lockHeldAt tr i

instance (tr : List RLAction) : Decidable (SleepOutsideLock tr) := by
  unfold SleepOutsideLock; infer_instance

/-- **C7, counterexample.** With `max_requests = 1`, `time_window = 2`, one
recorded admission at time `0` and a second caller arriving at time `1`,
the call sleeps `sleep_time = 1` while the mutex is held: `time.sleep` is
lexically inside the `with self.lock:` block, so the claim that the lock is
released around the sleep is false on the code. -/
theorem acquire_sleeps_inside_lock_counterexample :
    acquireTrace 1 2 1 [0] =
      [RLAction.lockAcq, RLAction.evictPass, RLAction.sleep 1,
        RLAction.evictPass, RLAction.record 2, RLAction.lockRel] ∧
    ¬ SleepOutsideLock (acquireTrace 1 2 1 [0]) := by
  have h1 : evictQ 2 1 [0] = [0] := by
    unfold evictQ
    rw [List.dropWhile_cons_of_neg (by simp only [decide_eq_true_eq]; norm_num)]
  have hacq : acquire 1 2 1 [0] =
      ⟨0 + 2, evictQ 2 (0 + 2) ([0] : List ℚ) ++ [0 + 2]⟩ :=
    (acquire_full_eq h1 (by simp)).2
  have htr : acquireTrace 1 2 1 [0] =
      [RLAction.lockAcq, RLAction.evictPass, RLAction.sleep 1,
        RLAction.evictPass, RLAction.record 2, RLAction.lockRel] := by
    simp only [acquireTrace, h1, hacq]
    norm_num
  refine ⟨htr, ?_⟩
  rw [htr]
  decide

/-- **C7, amended.** `RateLimiter.acquire` holds the internal mutex for the
whole call: the trace starts with the lock acquisition, ends with the
release, these are the only lock events, and every sleep (as well as the
re-eviction after it) happens strictly between them, i.e. while the lock is
held.  A sleeping caller therefore blocks other threads' eviction and
bookkeeping until it wakes up. -/
theorem acquire_holds_lock_during_sleep (R : ℕ) (W now : ℚ) (q : List ℚ) :
    (acquireTrace R W now q).head? = some RLAction.lockAcq ∧
    (acquireTrace R W now q).getLast? = some RLAction.lockRel ∧
    (acquireTrace R W now q).countP isLockAcq = 1 ∧
    (acquireTrace R W now q).countP isLockRel = 1 ∧
    (∀ i, (hi : i < (acquireTrace R W now q).length) →
      isSleepAction (acquireTrace R W now q)[i] = true →
      lockHeldAt (acquireTrace R W now q) i) := by
  unfold acquireTrace
  by_cases hfull : R ≤ (evictQ W now q).length
  · cases hq1 : evictQ W now q with
    | nil =>
      simp only [hq1, if_pos (hq1 ▸ hfull)]
      refine ⟨rfl, rfl, rfl, rfl, ?_⟩
      intro i hi hs
      simp at hi
      interval_cases i <;> simp_all [isSleepAction]
    | cons o rest =>
      by_cases hsl : 0 < o + W - now
      · simp only [hq1, if_pos (hq1 ▸ hfull), if_pos hsl]
        refine ⟨rfl, rfl, ?_, ?_, ?_⟩
        · simp [List.countP_cons, isLockAcq]
        · simp [List.countP_cons, isLockRel]
        · intro i hi hs
          simp at hi
          interval_cases i <;>
            simp_all [isSleepAction, lockHeldAt, List.countP_cons, isLockAcq,
              isLockRel]
      · simp only [hq1, if_pos (hq1 ▸ hfull), if_neg hsl]
        refine ⟨rfl, rfl, ?_, ?_, ?_⟩
        · simp [List.countP_cons, isLockAcq]
        · simp [List.countP_cons, isLockRel]
        · intro i hi hs
          simp at hi
          interval_cases i <;> simp_all [isSleepAction]
  · simp only [if_neg hfull]
    refine ⟨rfl, rfl, ?_, ?_, ?_⟩
    · simp [List.countP_cons, isLockAcq]
    · simp [List.countP_cons, isLockRel]
    · intro i hi hs
      simp at hi
      interval_cases i <;> simp_all [isSleepAction]

/-! ## Resilient document reader (`read_pdf_with_fallback`, lines 71-140)

Each parsing strategy is an oracle `Option (H × ℕ)`: `none` models an
attempt that raised an exception (or `ImportError` for PyMuPDF), which the
source swallows before falling through; `some (h, n)` models a successful
open returning handle `h` and page count `n` (`len(reader.pages)` /
`len(doc)`).  Strategies 1 and 3 both use the pypdf library and are both
tagged `'pypdf'` in the source. -/

inductive ReaderKind where
  | pypdf
  | pymupdf
  deriving Repr, DecidableEq

def readPdfWithFallback {H : Type} (lenientOpen pymupdfOpen strictOpen : Option (H × ℕ)) :
    Option (H × ℕ × ReaderKind) :=
  match lenientOpen with
  | some (h, n) => some (h, n, ReaderKind.pypdf)
  | none =>
    match pymupdfOpen with
    | some (h, n) => some (h, n, ReaderKind.pymupdf)
    | none =>
      match strictOpen with
      | some (h, n) => some (h, n, ReaderKind.pypdf)
      | none => none

/-- Ghost observer (not part of the returned tuple in the source): which of
the three strategies was the one that succeeded. -/
def succeededStrategy {H : Type} (lenientOpen pymupdfOpen strictOpen : Option (H × ℕ)) :
    Option ℕ :=
  match lenientOpen with
  | some _ => some 1
  | none =>
    match pymupdfOpen with
    | some _ => some 2
    | none =>
      match strictOpen with
      | some _ => some 3
      | none => none

/-- **C6.** The resilient reader tries (1) pypdf `strict=False`,
(2) PyMuPDF, (3) pypdf `strict=True`, in this fixed order, short-circuits
on the first success (each failed attempt's exception is swallowed — a
failure is just `none` here), returns `(handle, page_count, backend_kind)`
with the kind tagging the backend that actually succeeded (in particular
`'pymupdf'` when the primary fails and the secondary succeeds), and fails
only when every attempt has failed. -/
theorem read_pdf_fallback_chain {H : Type} (b1 b2 b3 : Option (H × ℕ)) :
    (∀ h n, b1 = some (h, n) →
      readPdfWithFallback b1 b2 b3 = some (h, n, ReaderKind.pypdf)) ∧
    (∀ h n, b1 = none → b2 = some (h, n) →
      readPdfWithFallback b1 b2 b3 = some (h, n, ReaderKind.pymupdf)) ∧
    (∀ h n, b1 = none → b2 = none → b3 = some (h, n) →
      readPdfWithFallback b1 b2 b3 = some (h, n, ReaderKind.pypdf)) ∧
    (readPdfWithFallback b1 b2 b3 = none ↔ b1 = none ∧ b2 = none ∧ b3 = none) := by
  refine ⟨?_, ?_, ?_, ?_⟩
  · rintro h n rfl; rfl
  · rintro h n rfl rfl; rfl
  · rintro h n rfl rfl rfl; rfl
  · cases b1 with
    | some p => cases p; simp [readPdfWithFallback]
    | none =>
      cases b2 with
      | some p => cases p; simp [readPdfWithFallback]
      | none =>
        cases b3 with
        | some p => cases p; simp [readPdfWithFallback]
        | none => simp [readPdfWithFallback]

/-- Witness for C6: primary-succeeds, secondary-succeeds and
tertiary-succeeds scenarios at concrete oracles. -/
theorem read_pdf_fallback_chain_witness :
    readPdfWithFallback (Option.none : Option (Unit × ℕ)) (some ((), 3)) none =
      some ((), 3, ReaderKind.pymupdf) ∧
    readPdfWithFallback (Option.none : Option (Unit × ℕ)) none (some ((), 2)) =
      some ((), 2, ReaderKind.pypdf) ∧
    readPdfWithFallback (some ((), 5) : Option (Unit × ℕ)) none none =
      some ((), 5, ReaderKind.pypdf) :=
  ⟨(read_pdf_fallback_chain none (some ((), 3)) none).2.1 () 3 rfl rfl,
   (read_pdf_fallback_chain none none (some ((), 2))).2.2.1 () 2 rfl rfl rfl,
   (read_pdf_fallback_chain (some ((), 5)) none none).1 () 5 rfl⟩

/-! ## Per-page extraction with fallback retry (`process_single_page`,
lines 843-871)

`primary` is the outcome of `extract_page_as_pdf(pdf_reader, page_num, …,
reader_type)`; `retryViaOriginalPath` is the outcome of the whole fallback
block `fitz.open(str(pdf_file))` + `extract_page_as_pdf(…, 'pymupdf')`,
run directly against the original document path (a single oracle, since
both statements sit in one `try`).  The returned flag records whether the
fallback retry ran; the source attempts it at most once, and only when
`reader_type == 'pypdf'`. -/

def extractPhase {A : Type} (kind : ReaderKind) (primary retryViaOriginalPath : Option A) :
    Option A × Bool :=
  match primary with
  | some a => (some a, false)
  | none =>
    match kind with
    | ReaderKind.pypdf => (retryViaOriginalPath, true)
    | ReaderKind.pymupdf => (none, false)

/-- The early `return (page_num, False, None)` taken when extraction failed
(`if not extraction_success:`); `none` means extraction succeeded and the
worker continues towards generation. -/
def extractionFailureReturn {A : Type} (pageIdx : ℕ) (res : Option A) :
    Option (ℕ × Bool × Option A) :=
  match res with
  | none => some (pageIdx, false, none)
  | some _ => none

/-- **C8, counterexample.** The retry condition in the source is
`reader_type == 'pypdf'`, and strategy 3 (pypdf `strict=True`) is tagged
`'pypdf'` as well.  So for a document that only the strict structural parse
could open, a failing page extraction still triggers the PyMuPDF retry —
contradicting the claim that the retry happens *only when the primary
backend was the lenient structural parser*. -/
theorem extract_retry_after_strict_parse_counterexample :
    succeededStrategy (Option.none : Option (Unit × ℕ)) none (some ((), 1)) = some 3 ∧
    readPdfWithFallback (Option.none : Option (Unit × ℕ)) none (some ((), 1)) =
      some ((), 1, ReaderKind.pypdf) ∧
    (extractPhase ReaderKind.pypdf (Option.none : Option Unit) none).2 = true :=
  ⟨rfl, rfl, rfl⟩

/-- **C8, amended.** For a page whose primary extraction fails, exactly one
fallback retry is attempted, and precisely when the reader kind is
`'pypdf'` — which covers both the lenient *and* the strict structural
parse, since both carry the same tag.  The retry consults the
PyMuPDF-on-original-path oracle (not the existing handle); when it also
fails, or when no retry applies (kind `'pymupdf'`), the worker returns
`(page_index, False, None)` for that page alone. -/
theorem extract_fallback_retry_amended {A : Type} (kind : ReaderKind)
    (primary retryRes : Option A) (pageIdx : ℕ) :
    ((extractPhase kind primary retryRes).2 = true ↔
      primary = none ∧ kind = ReaderKind.pypdf) ∧
    (primary = none → kind = ReaderKind.pypdf →
      extractPhase kind primary retryRes = (retryRes, true)) ∧
    (∀ a, primary = some a → extractPhase kind primary retryRes = (some a, false)) ∧
    (primary = none → kind = ReaderKind.pymupdf →
      extractPhase kind primary retryRes = (none, false)) ∧
    ((extractPhase kind primary retryRes).1 = none →
      extractionFailureReturn pageIdx (extractPhase kind primary retryRes).1 =
        some (pageIdx, false, none)) ∧
    (∀ {H : Type} (b1 b2 b3 : Option (H × ℕ)) (h : H) (n : ℕ),
      readPdfWithFallback b1 b2 b3 = some (h, n, ReaderKind.pypdf) →
      succeededStrategy b1 b2 b3 = some 1 ∨ succeededStrategy b1 b2 b3 = some 3) := by
  refine ⟨?_, ?_, ?_, ?_, ?_, ?_⟩
  · cases primary with
    | some a => simp [extractPhase]
    | none => cases kind <;> simp [extractPhase]
  · rintro rfl rfl; rfl
  · rintro a rfl; rfl
  · rintro rfl rfl; rfl
  · intro h
    rw [h]
    rfl
  · intro H b1 b2 b3 h n hread
    cases b1 with
    | some p => exact Or.inl rfl
    | none =>
      cases b2 with
      | some p =>
        exfalso
        cases p
        simp [readPdfWithFallback] at hread
      | none =>
        cases b3 with
        | some p => exact Or.inr rfl
        | none => simp [readPdfWithFallback] at hread

/-- Witness for C8 (amended): pypdf-tagged handle, failing primary
extraction, retry oracle succeeding. -/
theorem extract_fallback_retry_amended_witness :
    (extractPhase ReaderKind.pypdf (Option.none : Option Unit) (some ())).2 = true ∧
    extractPhase ReaderKind.pypdf (Option.none : Option Unit) (some ()) = (some (), true) ∧
    extractionFailureReturn 4 (extractPhase ReaderKind.pymupdf (Option.none : Option Unit) none).1 =
      some (4, false, none) :=
  ⟨((extract_fallback_retry_amended ReaderKind.pypdf none (some ()) 0).1).mpr ⟨rfl, rfl⟩,
   (extract_fallback_retry_amended ReaderKind.pypdf none (some ()) 0).2.1 rfl rfl,
   (extract_fallback_retry_amended ReaderKind.pymupdf none none 4).2.2.2.2.1 rfl⟩

/-! ## Character scanner toolkit

Python `re` operations used by `embed_images_inline` and
`ensure_html_lang_dir` are embedded as deterministic scanners over
`List Char`.  All patterns involved are backtracking-free once the greedy
runs are taken maximal, so each one has a direct functional reading. -/

/-- Case-insensitive literal match: consume `pat` (up to ASCII case) from
the head of the input, returning the rest. -/
def stripLitCI : List Char → List Char → Option (List Char)
  | [], cs => some cs
  | _ :: _, [] => none
  | p :: ps, c :: cs => if c.toLower = p.toLower then stripLitCI ps cs else none

/-- Case-sensitive literal match at the head. -/
def stripLit : List Char → List Char → Option (List Char)
  | [], cs => some cs
  | _ :: _, [] => none
  | p :: ps, c :: cs => if c = p then stripLit ps cs else none

def headSeg : List Char → List Char → Bool
  | [], _ => true
  | _ :: _, [] => false
  | p :: ps, c :: cs => c = p && headSeg ps cs

/-- Index of the leftmost (case-sensitive) occurrence of `pat`. -/
def segIdx (pat : List Char) : List Char → Option ℕ
  | [] => if headSeg pat [] then some 0 else none
  | c :: cs => if headSeg pat (c :: cs) then some 0 else (segIdx pat cs).map (· + 1)

/-- Index of the leftmost case-insensitive occurrence of `pat`. -/
def segIdxCI (pat : List Char) : List Char → Option ℕ
  | [] => if (stripLitCI pat []).isSome then some 0 else none
  | c :: cs =>
    if (stripLitCI pat (c :: cs)).isSome then some 0
    else (segIdxCI pat cs).map (· + 1)

/-- `pat` occurs as a contiguous segment of `s`. -/
def SubSeg (pat s : List Char) : Prop := ∃ a b, s = a ++ pat ++ b

lemma headSeg_iff : ∀ (pat cs : List Char),
    headSeg pat cs = true ↔ ∃ b, cs = pat ++ b := by
  intro pat
  induction pat with
  | nil => intro cs; simp [headSeg]
  | cons p ps ih =>
    intro cs
    cases cs with
    | nil => simp [headSeg]
    | cons c ds =>
      simp only [headSeg, Bool.and_eq_true, decide_eq_true_eq]
      constructor
      · rintro ⟨rfl, h⟩
        obtain ⟨b, rfl⟩ := (ih ds).mp h
        exact ⟨b, rfl⟩
      · rintro ⟨b, hb⟩
        rw [List.cons_append] at hb
        injection hb with h1 h2
        subst h1
        exact ⟨rfl, (ih ds).mpr ⟨b, h2⟩⟩

lemma segIdx_isSome_iff : ∀ (pat s : List Char),
    (segIdx pat s).isSome = true ↔ SubSeg pat s := by
  intro pat s
  induction s with
  | nil =>
    simp only [segIdx]
    by_cases h : headSeg pat [] = true
    · simp only [if_pos h, Option.isSome_some, true_iff]
      obtain ⟨b, hb⟩ := (headSeg_iff pat []).mp h
      exact ⟨[], b, by simpa using hb⟩
    · simp only [if_neg h, Option.isSome_none]
      constructor
      · intro hfalse; cases hfalse
      · rintro ⟨a, b, hab⟩
        have ha : a = [] := by
          cases a with
          | nil => rfl
          | cons x xs => simp at hab
        subst ha
        have hb2 : pat ++ b = [] := hab.symm
        have : pat = [] := by
          cases pat with
          | nil => rfl
          | cons x xs => simp at hb2
        subst this
        exact absurd ((headSeg_iff [] []).mpr ⟨[], rfl⟩) h
  | cons c cs ih =>
    simp only [segIdx]
    by_cases h : headSeg pat (c :: cs) = true
    · simp only [if_pos h, Option.isSome_some, true_iff]
      obtain ⟨b, hb⟩ := (headSeg_iff pat (c :: cs)).mp h
      exact ⟨[], b, by simpa using hb⟩
    · simp only [if_neg h]
      have hmap : (Option.map (fun x => x + 1) (segIdx pat cs)).isSome =
          (segIdx pat cs).isSome := by
        cases segIdx pat cs <;> rfl
      rw [hmap, ih]
      constructor
      · rintro ⟨a, b, rfl⟩
        exact ⟨c :: a, b, rfl⟩
      · rintro ⟨a, b, hab⟩
        cases a with
        | nil =>
          exfalso
          apply h
          exact (headSeg_iff pat (c :: cs)).mpr ⟨b, by simpa using hab⟩
        | cons x xs =>
          rw [List.cons_append, List.cons_append] at hab
          cases hab
          exact ⟨xs, b, rfl⟩

instance (pat s : List Char) : Decidable (SubSeg pat s) :=
  decidable_of_iff ((segIdx pat s).isSome = true) (segIdx_isSome_iff pat s)

/-! ## Placeholder resolver (`embed_images_inline`, `backend/main.py` lines 662-821)

The manifest JSON is embedded structurally; `Option` fields model missing
keys.  Python falsiness (`x or y` treats `None`, `''` and `0` as false) is
mirrored by `pyOrS` / `pyOrN`.  The file system and the copy step are an
existence oracle `String → Bool`; `shutil.copy2` is assumed to succeed
(its failure path is the same `continue` as a missing file). -/

structure ManifestImage where
  id? : Option String
  filename? : Option String
  path? : Option String
  description? : Option String
  caption? : Option String
  pageNum? : Option ℕ
  pageAlt? : Option ℕ
  deriving Repr, DecidableEq

structure ManifestPage where
  pageNum? : Option ℕ
  images : List ManifestImage
  deriving Repr, DecidableEq

structure Manifest where
  pages : List ManifestPage
  deriving Repr, DecidableEq

/-- Python `a or b` on optional strings (`''` is falsy). -/
def pyOrS : Option String → Option String → Option String
  | some s, b => if s = "" then b else some s
  | none, b => b

/-- Python `a or b or d` collapsed to a total string. -/
def pyOrSD (a b : Option String) (d : String) : String :=
  match pyOrS a b with
  | some s => if s = "" then d else s
  | none => d

/-- Python `a or b` on optional numbers (`0` is falsy, but a trailing falsy
operand is returned as-is). -/
def pyOrN : Option ℕ → Option ℕ → Option ℕ
  | some n, b => if n = 0 then b else some n
  | none, b => b

/-- `Path(s).name`: the component after the last `/`. -/
def pathName (s : String) : String :=
  String.mk ((s.toList.reverse.takeWhile (fun c => !(c = '/'))).reverse)

def lastDotIdx : List Char → Option ℕ
  | [] => none
  | c :: cs =>
    match lastDotIdx cs with
    | some i => some (i + 1)
    | none => if c = '.' then some 0 else none

/-- `Path(s).stem`: the name with its suffix removed; pathlib only counts a
suffix when the last dot is neither the first nor the last character. -/
def pathStem (s : String) : String :=
  let nm := (pathName s).toList
  match lastDotIdx nm with
  | some i => if 0 < i ∧ i + 1 < nm.length then String.mk (nm.take i) else String.mk nm
  | none => String.mk nm

/-- `Path(a) / b` (a later absolute component replaces the head). -/
def pathJoin (a b : String) : String :=
  if b.startsWith "/" then b else a ++ "/" ++ b

def containsSegCI (pat s : String) : Bool :=
  (segIdxCI pat.toList s.toList).isSome

def digitsToNat (ds : List Char) : ℕ :=
  ds.foldl (fun a c => a * 10 + (c.toNat - 48)) 0

/-- `re.search(r'LIT(\d+)', s)`: leftmost occurrence of the literal
followed by at least one digit; the group is the maximal digit run. -/
def searchNumTag (lit : List Char) : List Char → Option ℕ
  | [] => none
  | c :: cs =>
    match stripLit lit (c :: cs) with
    | some rest =>
      let ds := rest.takeWhile Char.isDigit
      if ds.length = 0 then searchNumTag lit cs else some (digitsToNat ds)
    | none => searchNumTag lit cs

structure ImgEntry where
  rel : String
  desc : String
  page? : Option ℕ
  deriving Repr, DecidableEq

structure BuiltImg where
  imgId : String
  fnStem : String
  entry : ImgEntry
  deriving Repr, DecidableEq

/-- The three-way path probe of lines 710-721: the raw path, then
`images_output_root / raw`, then `images_output_root / basename(raw)`. -/
def resolveSrcPath (fs : String → Bool) (root rawPath : String) : Option String :=
  if fs rawPath then some rawPath
  else if fs (pathJoin root rawPath) then some (pathJoin root rawPath)
  else if fs (pathJoin root (pathName rawPath)) then some (pathJoin root (pathName rawPath))
  else none

/-- One iteration of the manifest-image loop (lines 709-750): locate the
extracted file, derive the copied path relative to the output file's
directory, the id, the description (suppressing the auto-generated
`Image extracted from page …` captions) and the page number (inferred from
a `page_<n>` filename pattern when the manifest does not provide one). -/
def buildImg (fs : String → Bool) (root pdfStem : String) (img : ManifestImage) :
    Option BuiltImg :=
  let rawPath := pyOrSD img.path? img.filename? ""
  match resolveSrcPath fs root rawPath with
  | none => none
  | some src =>
    let rel := "extracted_images/" ++ pdfStem ++ "/" ++ pathName src
    let imgId := pyOrSD img.id? img.filename? (pathStem src)
    let desc0 := pyOrSD img.description? img.caption? imgId
    let desc := if containsSegCI "Image extracted from page" desc0 then "" else desc0
    let pn0 := pyOrN img.pageNum? img.pageAlt?
    let pn := match pn0 with
      | none => searchNumTag "page_".toList (pathStem rel).toList
      | some n => some n
    some ⟨imgId,
      pathStem (match img.filename? with | some f => f | none => ""),
      ⟨rel, desc, pn⟩⟩

def dictGet (m : List (String × ImgEntry)) (k : String) : Option ImgEntry :=
  (m.find? (fun e => e.1 == k)).map (fun e => e.2)

def byPageGet (m : List (ℕ × List ImgEntry)) (p : ℕ) : Option (List ImgEntry) :=
  (m.find? (fun e => e.1 == p)).map (fun e => e.2)

def byPageAppend : List (ℕ × List ImgEntry) → ℕ → ImgEntry → List (ℕ × List ImgEntry)
  | [], p, e => [(p, [e])]
  | (q, l) :: rest, p, e =>
    if q = p then (q, l ++ [e]) :: rest else (q, l) :: byPageAppend rest p e

/-- Image selection (lines 682-690): with a page number, the images of the
first manifest page whose `page_num` equals it; otherwise all pages'
images in manifest order. -/
def selectImages (man : Manifest) (page? : Option ℕ) : List ManifestImage :=
  match page? with
  | some p =>
    match man.pages.find? (fun mp => mp.pageNum? == some p) with
    | some mp => mp.images
    | none => []
  | none => (man.pages.map (fun mp => mp.images)).foldr (· ++ ·) []

structure ResolveEnv where
  imgMap : List (String × ImgEntry)
  fnMap : List (String × ImgEntry)
  byPage : List (ℕ × List ImgEntry)
  allImages : List ImgEntry
  pageNum? : Option ℕ
  deriving Repr, DecidableEq

/-- The map-building loop of lines 703-750.  Dict writes are modelled by
prepending (`dictGet` returns the most recent binding, like a Python dict
overwrite); `images_by_page` appends in encounter order. -/
def buildEnv (fs : String → Bool) (root pdfStem : String)
    (images : List ManifestImage) (page? : Option ℕ) : ResolveEnv :=
  images.foldl
    (fun env img =>
      match buildImg fs root pdfStem img with
      | none => env
      | some b =>
        { env with
          imgMap := (b.imgId, b.entry) :: env.imgMap
          fnMap := (b.fnStem, b.entry) :: env.fnMap
          byPage := match b.entry.page? with
            | some p => byPageAppend env.byPage p b.entry
            | none => env.byPage
          allImages := env.allImages ++ [b.entry] })
    ⟨[], [], [], [], page?⟩

/-- Characters allowed in the token id group `[^:\]\s]+`. -/
def phIdChar (c : Char) : Bool := !(c = ':' || c = ']' || c.isWhitespace)

/-- Characters allowed in the description group `[^\]\n<]*`. -/
def phDescChar (c : Char) : Bool := !(c = ']' || c = '\n' || c = '<')

def phLit : List Char := "IMAGE_PLACEHOLDER:".toList

/-- Matcher for `\[?IMAGE_PLACEHOLDER:([^:\]\s]+):([^\]\n<]*)\]?`
(case-insensitive) at the head of the input: returns the
matched span length and the two capture groups.  The id run is maximal and
must be followed by `:`; the description run is maximal; a directly
following `]` is consumed. -/
def matchPH (cs : List Char) : Option (ℕ × String × String) :=
  let lb : ℕ := match cs with
    | '[' :: _ => 1
    | _ => 0
  let cs1 := match cs with
    | '[' :: r => r
    | _ => cs
  match stripLitCI phLit cs1 with
  | none => none
  | some cs2 =>
    let g1 := cs2.takeWhile phIdChar
    if g1.length = 0 then none
    else
      match cs2.drop g1.length with
      | ':' :: cs4 =>
        let g2 := cs4.takeWhile phDescChar
        let rb : ℕ := match cs4.drop g2.length with
          | ']' :: _ => 1
          | _ => 0
        some (lb + phLit.length + g1.length + 1 + g2.length + rb,
          String.mk g1, String.mk g2)
      | _ => none

/-- Fuel-driven scanner counting pattern occurrences; every step consumes
one unit of fuel and at least one character, so any fuel above the input
length is enough (structural recursion keeps it kernel-computable). -/
def countPHF : ℕ → List Char → ℕ
  | 0, _ => 0
  | _ + 1, [] => 0
  | fuel + 1, c :: cs =>
    match matchPH (c :: cs) with
    | none => countPHF fuel cs
    | some (len, _, _) => countPHF fuel (cs.drop (len - 1)) + 1

/-- Number of pattern occurrences in the input — exactly the `n` returned
by `pattern.subn` (every match counts, whether or not it was resolved). -/
def countPH (cs : List Char) : ℕ := countPHF (cs.length + 1) cs

structure SubCounters where
  pageCounters : List (ℕ × ℕ)
  globalCounter : ℕ
  deriving Repr, DecidableEq

def countersGet (m : List (ℕ × ℕ)) (p : ℕ) : ℕ :=
  match m.find? (fun e => e.1 == p) with
  | some e => e.2
  | none => 0

/-- The lookup chain of `_repl` (lines 767-789): exact id map, filename
stem map, per-page positional counter (only when a page number was given
and that page has listed images), then the global counter.  The two
counters advance only when they themselves produce the match. -/
def resolveEntry (env : ResolveEnv) (s : SubCounters) (iid : String) :
    SubCounters × Option ImgEntry :=
  match dictGet env.imgMap iid with
  | some e => (s, some e)
  | none =>
    match dictGet env.fnMap iid with
    | some e => (s, some e)
    | none =>
      let step3 : SubCounters × Option ImgEntry :=
        match env.pageNum? with
        | some p =>
          match byPageGet env.byPage p with
          | some lst =>
            let idx := countersGet s.pageCounters p
            if h : idx < lst.length then
              (⟨(p, idx + 1) :: s.pageCounters, s.globalCounter⟩, some lst[idx])
            else (s, none)
          | none => (s, none)
        | none => (s, none)
      match step3 with
      | (s1, some e) => (s1, some e)
      | (s1, none) =>
        if h : s1.globalCounter < env.allImages.length then
          (⟨s1.pageCounters, s1.globalCounter + 1⟩,
            some env.allImages[s1.globalCounter])
        else (s1, none)

/-- The `<figure>` replacement of lines 791-795; an empty (or suppressed)
description omits the `figcaption`. -/
def figureHtml (e : ImgEntry) : String :=
  if e.desc = "" then
    "<figure><img src=\"" ++ e.rel ++ "\" alt=\"\" loading=\"lazy\"/></figure>"
  else
    "<figure><img src=\"" ++ e.rel ++ "\" alt=\"" ++ e.desc ++
      "\" loading=\"lazy\"/><figcaption>" ++ e.desc ++ "</figcaption></figure>"

/-- `_repl` applied to one match: a resolved entry becomes a figure
element, an unresolved token is returned verbatim (`match.group(0)`). -/
def applyRepl (env : ResolveEnv) (s : SubCounters) (iid : String) (orig : List Char) :
    SubCounters × List Char :=
  match resolveEntry env s iid with
  | (s1, some e) => (s1, (figureHtml e).toList)
  | (s1, none) => (s1, orig)

/-- Fuel-driven single pass of `pattern.subn(_repl, html)`: scan left to
right, replace each match and continue after it, threading the counter
state; returns the rewritten text and the number of matches. -/
def scanSubF (env : ResolveEnv) : ℕ → SubCounters → List Char → List Char × ℕ
  | 0, _, _ => ([], 0)
  | _ + 1, _, [] => ([], 0)
  | fuel + 1, s, c :: cs =>
    match matchPH (c :: cs) with
    | none =>
      let r := scanSubF env fuel s cs
      (c :: r.1, r.2)
    | some (len, iid, _) =>
      let ar := applyRepl env s iid ((c :: cs).take len)
      let r := scanSubF env fuel ar.1 (cs.drop (len - 1))
      (ar.2 ++ r.1, r.2 + 1)

/-- `pattern.subn(_repl, html)` with always-sufficient fuel. -/
def scanSub (env : ResolveEnv) (s : SubCounters) (cs : List Char) : List Char × ℕ :=
  scanSubF env (cs.length + 1) s cs

/-- The per-entry lines of the `Extracted Figures` block (the `for` loop
of lines 809-814, one figure element and newline per entry). -/
def figuresBody : List ImgEntry → String
  | [] => ""
  | e :: rest => (figureHtml e ++ "\n") ++ figuresBody rest

/-- The trailing `Extracted Figures` block appended when no token matched
(lines 807-815). -/
def figuresSection (entries : List ImgEntry) : String :=
  "\n<hr/>\n<h2>Extracted Figures</h2>\n<div class=\"extracted-images\">\n" ++
    figuresBody entries ++ "</div>\n"

/-- `embed_images_inline` as a function from the persisted page markup to
the resulting file content: no selected images is a no-op; at least one
regex match persists the substituted text; zero matches appends the
trailing extracted-figures section. -/
def embedImagesInline (fs : String → Bool) (man : Manifest) (root pdfStem : String)
    (page? : Option ℕ) (html : String) : String :=
  let images := selectImages man page?
  if images.isEmpty then html
  else
    let env := buildEnv fs root pdfStem images page?
    let r := scanSub env ⟨[], 0⟩ html.toList
    if 0 < r.2 then String.mk r.1
    else html ++ figuresSection env.allImages

/-- Structural description of one `subn` pass: characters outside matches
are copied verbatim, a match whose token resolves becomes a figure
element, and a match whose token does not resolve is copied verbatim
(`match.group(0)`), the counter state threading left to right. -/
inductive SubstRel (env : ResolveEnv) : SubCounters → List Char → List Char → Prop
  | nil (s : SubCounters) : SubstRel env s [] []
  | keep (s : SubCounters) (c : Char) (cs out : List Char) :
      matchPH (c :: cs) = none →
      SubstRel env s cs out →
      SubstRel env s (c :: cs) (c :: out)
  | substFig (s : SubCounters) (c : Char) (cs : List Char) (len : ℕ)
      (iid desc : String) (s1 : SubCounters) (e : ImgEntry) (out : List Char) :
      matchPH (c :: cs) = some (len, iid, desc) →
      resolveEntry env s iid = (s1, some e) →
      SubstRel env s1 (cs.drop (len - 1)) out →
      SubstRel env s (c :: cs) ((figureHtml e).toList ++ out)
  | substKeep (s : SubCounters) (c : Char) (cs : List Char) (len : ℕ)
      (iid desc : String) (s1 : SubCounters) (out : List Char) :
      matchPH (c :: cs) = some (len, iid, desc) →
      resolveEntry env s iid = (s1, none) →
      SubstRel env s1 (cs.drop (len - 1)) out →
      SubstRel env s (c :: cs) ((c :: cs).take len ++ out)

lemma scanSubF_substRel (env : ResolveEnv) :
    ∀ (fuel : ℕ) (cs : List Char), cs.length < fuel → ∀ (s : SubCounters),
      SubstRel env s cs (scanSubF env fuel s cs).1 := by
  intro fuel
  induction fuel with
  | zero => intro cs hcs; omega
  | succ fuel ih =>
    intro cs hcs s
    cases cs with
    | nil => exact SubstRel.nil s
    | cons c cs' =>
      cases hm : matchPH (c :: cs') with
      | none =>
        simp only [scanSubF, hm]
        exact SubstRel.keep s c cs' _ hm (ih cs' (by simp at hcs; omega) s)
      | some v =>
        obtain ⟨len, iid, desc⟩ := v
        simp only [scanSubF, hm]
        have hlen : (cs'.drop (len - 1)).length < fuel := by
          have := List.length_drop (len - 1) cs'
          simp at hcs
          omega
        cases hres : resolveEntry env s iid with
        | mk s1 oe =>
          cases oe with
          | some e =>
            have harepl : applyRepl env s iid ((c :: cs').take len) =
                (s1, (figureHtml e).toList) := by
              unfold applyRepl
              rw [hres]
            rw [harepl]
            exact SubstRel.substFig s c cs' len iid desc s1 e _ hm hres
              (ih _ hlen s1)
          | none =>
            have harepl : applyRepl env s iid ((c :: cs').take len) =
                (s1, (c :: cs').take len) := by
              unfold applyRepl
              rw [hres]
            rw [harepl]
            exact SubstRel.substKeep s c cs' len iid desc s1 _ hm hres
              (ih _ hlen s1)

lemma scanSub_substRel (env : ResolveEnv) (cs : List Char) (s : SubCounters) :
    SubstRel env s cs (scanSub env s cs).1 :=
  scanSubF_substRel env (cs.length + 1) cs (by omega) s

lemma scanSubF_count (env : ResolveEnv) :
    ∀ (fuel : ℕ) (cs : List Char), cs.length < fuel → ∀ (s : SubCounters),
      (scanSubF env fuel s cs).2 = countPHF fuel cs := by
  intro fuel
  induction fuel with
  | zero => intro cs hcs; omega
  | succ fuel ih =>
    intro cs hcs s
    cases cs with
    | nil => rfl
    | cons c cs' =>
      cases hm : matchPH (c :: cs') with
      | none =>
        simp only [scanSubF, countPHF, hm]
        exact ih cs' (by simp at hcs; omega) s
      | some v =>
        obtain ⟨len, iid, desc⟩ := v
        simp only [scanSubF, countPHF, hm]
        have hlen : (cs'.drop (len - 1)).length < fuel := by
          have := List.length_drop (len - 1) cs'
          simp at hcs
          omega
        rw [ih _ hlen]

lemma scanSub_count (env : ResolveEnv) (cs : List Char) (s : SubCounters) :
    (scanSub env s cs).2 = countPH cs :=
  scanSubF_count env (cs.length + 1) cs (by omega) s

lemma optionCases {α : Type} (o : Option α) : (∃ a, o = some a) ∨ o = none := by
  cases o with
  | none => exact Or.inr rfl
  | some a => exact Or.inl ⟨a, rfl⟩

lemma resolveEntry_img {env : ResolveEnv} {s : SubCounters} {iid : String} {e : ImgEntry}
    (h : dictGet env.imgMap iid = some e) : resolveEntry env s iid = (s, some e) := by
  unfold resolveEntry
  rw [h]

lemma resolveEntry_fn {env : ResolveEnv} {s : SubCounters} {iid : String} {e : ImgEntry}
    (h1 : dictGet env.imgMap iid = none) (h2 : dictGet env.fnMap iid = some e) :
    resolveEntry env s iid = (s, some e) := by
  unfold resolveEntry
  rw [h1, h2]

lemma resolveEntry_pos {env : ResolveEnv} {s : SubCounters} {iid : String}
    {p : ℕ} {lst : List ImgEntry}
    (h1 : dictGet env.imgMap iid = none) (h2 : dictGet env.fnMap iid = none)
    (hp : env.pageNum? = some p) (hl : byPageGet env.byPage p = some lst)
    (hidx : countersGet s.pageCounters p < lst.length) :
    resolveEntry env s iid =
      (⟨(p, countersGet s.pageCounters p + 1) :: s.pageCounters, s.globalCounter⟩,
        some (lst.get ⟨countersGet s.pageCounters p, hidx⟩)) := by
  unfold resolveEntry
  rw [h1, h2, hp]
  dsimp only
  rw [hl]
  simp only [dif_pos hidx]
  rfl

lemma resolveEntry_posFail_glob {env : ResolveEnv} {s : SubCounters} {iid : String}
    {p : ℕ} {lst : List ImgEntry}
    (h1 : dictGet env.imgMap iid = none) (h2 : dictGet env.fnMap iid = none)
    (hp : env.pageNum? = some p) (hl : byPageGet env.byPage p = some lst)
    (hidx : ¬ countersGet s.pageCounters p < lst.length)
    (hg : s.globalCounter < env.allImages.length) :
    resolveEntry env s iid =
      (⟨s.pageCounters, s.globalCounter + 1⟩,
        some (env.allImages.get ⟨s.globalCounter, hg⟩)) := by
  unfold resolveEntry
  rw [h1, h2, hp]
  dsimp only
  rw [hl]
  simp only [dif_neg hidx, dif_pos hg]
  rfl

lemma resolveEntry_posFail_none {env : ResolveEnv} {s : SubCounters} {iid : String}
    {p : ℕ} {lst : List ImgEntry}
    (h1 : dictGet env.imgMap iid = none) (h2 : dictGet env.fnMap iid = none)
    (hp : env.pageNum? = some p) (hl : byPageGet env.byPage p = some lst)
    (hidx : ¬ countersGet s.pageCounters p < lst.length)
    (hg : ¬ s.globalCounter < env.allImages.length) :
    resolveEntry env s iid = (s, none) := by
  unfold resolveEntry
  rw [h1, h2, hp]
  dsimp only
  rw [hl]
  simp only [dif_neg hidx, dif_neg hg]

lemma resolveEntry_noLst_glob {env : ResolveEnv} {s : SubCounters} {iid : String} {p : ℕ}
    (h1 : dictGet env.imgMap iid = none) (h2 : dictGet env.fnMap iid = none)
    (hp : env.pageNum? = some p) (hl : byPageGet env.byPage p = none)
    (hg : s.globalCounter < env.allImages.length) :
    resolveEntry env s iid =
      (⟨s.pageCounters, s.globalCounter + 1⟩,
        some (env.allImages.get ⟨s.globalCounter, hg⟩)) := by
  unfold resolveEntry
  rw [h1, h2, hp]
  dsimp only
  rw [hl]
  simp only [dif_pos hg]
  rfl

lemma resolveEntry_noLst_none {env : ResolveEnv} {s : SubCounters} {iid : String} {p : ℕ}
    (h1 : dictGet env.imgMap iid = none) (h2 : dictGet env.fnMap iid = none)
    (hp : env.pageNum? = some p) (hl : byPageGet env.byPage p = none)
    (hg : ¬ s.globalCounter < env.allImages.length) :
    resolveEntry env s iid = (s, none) := by
  unfold resolveEntry
  rw [h1, h2, hp]
  dsimp only
  rw [hl]
  simp only [dif_neg hg]

lemma resolveEntry_noPage_glob {env : ResolveEnv} {s : SubCounters} {iid : String}
    (h1 : dictGet env.imgMap iid = none) (h2 : dictGet env.fnMap iid = none)
    (hp : env.pageNum? = none)
    (hg : s.globalCounter < env.allImages.length) :
    resolveEntry env s iid =
      (⟨s.pageCounters, s.globalCounter + 1⟩,
        some (env.allImages.get ⟨s.globalCounter, hg⟩)) := by
  unfold resolveEntry
  rw [h1, h2, hp]
  simp only [dif_pos hg]
  rfl

lemma resolveEntry_noPage_none {env : ResolveEnv} {s : SubCounters} {iid : String}
    (h1 : dictGet env.imgMap iid = none) (h2 : dictGet env.fnMap iid = none)
    (hp : env.pageNum? = none)
    (hg : ¬ s.globalCounter < env.allImages.length) :
    resolveEntry env s iid = (s, none) := by
  unfold resolveEntry
  rw [h1, h2, hp]
  simp only [dif_neg hg]

lemma subSeg_append_left {p s : List Char} (t : List Char) (h : SubSeg p s) :
    SubSeg p (t ++ s) := by
  obtain ⟨a, b, rfl⟩ := h
  exact ⟨t ++ a, b, by simp [List.append_assoc]⟩

lemma subSeg_append_right {p s : List Char} (t : List Char) (h : SubSeg p s) :
    SubSeg p (s ++ t) := by
  obtain ⟨a, b, rfl⟩ := h
  exact ⟨a, b ++ t, by simp [List.append_assoc]⟩

lemma figuresBody_subSeg {e : ImgEntry} :
    ∀ {l : List ImgEntry}, e ∈ l →
      SubSeg (figureHtml e ++ "\n").toList (figuresBody l).toList := by
  intro l
  induction l with
  | nil => intro h; simp at h
  | cons x xs ih =>
    intro h
    rw [figuresBody]
    have htl : ((figureHtml x ++ "\n") ++ figuresBody xs).toList =
        (figureHtml x ++ "\n").toList ++ (figuresBody xs).toList := by
      simp [String.toList]
    rw [htl]
    rcases List.mem_cons.mp h with rfl | hmem
    · exact subSeg_append_right _ ⟨[], [], by simp⟩
    · exact subSeg_append_left _ (ih hmem)

lemma figuresSection_length_pos (l : List ImgEntry) :
    0 < (figuresSection l).length := by
  unfold figuresSection
  rw [String.length_append, String.length_append]
  have h : 0 < ("\n<hr/>\n<h2>Extracted Figures</h2>\n<div class=\"extracted-images\">\n" : String).length := by
    decide
  omega

/-! Concrete fixtures used by the counterexamples and witnesses: a two-image
manifest for page 1 whose files exist under `/imgs`. -/

def exImgFs : String → Bool := fun p =>
  p == "/imgs/fig_1.png" || p == "/imgs/fig_2.png"

def exManifest : Manifest :=
  ⟨[⟨some 1,
    [⟨some "fig_1", some "fig_1.png", some "/imgs/fig_1.png", some "first", none, some 1, none⟩,
     ⟨some "fig_2", some "fig_2.png", some "/imgs/fig_2.png", some "second", none, some 1, none⟩]⟩]⟩

def exFig1Html : String :=
  "<figure><img src=\"extracted_images/doc/fig_1.png\" alt=\"first\" loading=\"lazy\"/><figcaption>first</figcaption></figure>"

/-- **C9.** The image-embedding step never removes generated page content:
its output is either the unmodified input (no images selected for the
page), or the input with each match span substituted in place — matched
tokens become figure elements, unmatched tokens stay character-for-character,
all other characters are copied verbatim (`SubstRel`) — or the unmodified
input with the trailing extracted-figures section appended at the end. -/
theorem embed_images_frame_property (fs : String → Bool) (man : Manifest)
    (root pdfStem : String) (page? : Option ℕ) (html : String) :
    embedImagesInline fs man root pdfStem page? html = html ∨
    (∃ out, SubstRel (buildEnv fs root pdfStem (selectImages man page?) page?)
        ⟨[], 0⟩ html.toList out ∧
      embedImagesInline fs man root pdfStem page? html = String.mk out) ∨
    embedImagesInline fs man root pdfStem page? html =
      html ++ figuresSection
        (buildEnv fs root pdfStem (selectImages man page?) page?).allImages := by
  unfold embedImagesInline
  by_cases himg : (selectImages man page?).isEmpty
  · rw [if_pos himg]
    exact Or.inl rfl
  · rw [if_neg himg]
    by_cases hn : 0 < (scanSub (buildEnv fs root pdfStem (selectImages man page?) page?)
        ⟨[], 0⟩ html.toList).2
    · rw [if_pos hn]
      exact Or.inr (Or.inl
        ⟨_, scanSub_substRel _ html.toList _, rfl⟩)
    · rw [if_neg hn]
      exact Or.inr (Or.inr rfl)

/-- **C4, counterexample.** Idempotence fails: on markup with zero
placeholder tokens and a manifest that lists images for the page, the
resolver appends the trailing extracted-figures section, so a second run
over already-resolved output is not a no-op (each run grows the file). -/
theorem resolver_not_idempotent_counterexample :
    countPH ("<p>no tokens</p>" : String).toList = 0 ∧
    embedImagesInline exImgFs exManifest "/r" "doc" (some 1) "<p>no tokens</p>" ≠
      "<p>no tokens</p>" := by
  refine ⟨by decide, by decide⟩

/-- **C4, amended.** On markup containing zero placeholder tokens, the
resolver is a no-op exactly when the manifest selects no images for the
target page; otherwise it appends the trailing extracted-figures section
(and therefore is not idempotent). -/
theorem resolver_noop_iff_no_selected_images (fs : String → Bool) (man : Manifest)
    (root pdfStem : String) (page? : Option ℕ) (html : String)
    (hzero : countPH html.toList = 0) :
    embedImagesInline fs man root pdfStem page? html = html ↔
      selectImages man page? = [] := by
  unfold embedImagesInline
  by_cases himg : (selectImages man page?).isEmpty
  · rw [if_pos himg]
    rw [List.isEmpty_iff] at himg
    simp [himg]
  · rw [if_neg himg]
    have hcount := scanSub_count (buildEnv fs root pdfStem (selectImages man page?) page?)
      html.toList ⟨[], 0⟩
    have hnot : ¬ 0 < (scanSub (buildEnv fs root pdfStem (selectImages man page?) page?)
        ⟨[], 0⟩ html.toList).2 := by
      rw [hcount, hzero]
      omega
    rw [if_neg hnot]
    constructor
    · intro heq
      exfalso
      have hlen := congrArg String.length heq
      rw [String.length_append] at hlen
      have hpos := figuresSection_length_pos
        (buildEnv fs root pdfStem (selectImages man page?) page?).allImages
      omega
    · intro hsel
      exfalso
      rw [hsel] at himg
      simp at himg

/-- Witness for C4 (amended): a token-free page with no images selected
(page 2 of the fixture manifest) is left unchanged. -/
theorem resolver_noop_iff_no_selected_images_witness :
    countPH ("<p>x</p>" : String).toList = 0 ∧
    (embedImagesInline exImgFs exManifest "/r" "doc" (some 2) "<p>x</p>" = "<p>x</p>" ↔
      selectImages exManifest (some 2) = []) :=
  ⟨by decide,
   resolver_noop_iff_no_selected_images exImgFs exManifest "/r" "doc" (some 2) "<p>x</p>"
     (by decide)⟩

/-- **C5, counterexample.** The manifest lists `fig_1` and `fig_2` for
page 1; the markup contains a token only for `fig_1`.  Since at least one
token matched (`n > 0`), the trailing-fallback branch is never reached:
the output substitutes `fig_1` and `fig_2` appears nowhere — the listed
image is silently lost, contradicting the claim. -/
theorem resolver_unmatched_image_lost_counterexample :
    (selectImages exManifest (some 1)).length = 2 ∧
    embedImagesInline exImgFs exManifest "/r" "doc" (some 1)
        "<p>[IMAGE_PLACEHOLDER:fig_1:first]</p>" =
      "<p>" ++ exFig1Html ++ "</p>" ∧
    ¬ SubSeg ("fig_2" : String).toList
      ("<p>" ++ exFig1Html ++ "</p>" : String).toList := by
  refine ⟨by decide, by decide, by decide⟩

/-- **C5, amended.** The trailing extracted-figures fallback fires only
when *zero* tokens matched anywhere in the page: in that case (with a
nonempty image selection) the output is exactly the input plus the
trailing section, which lists **every** successfully located image in
manifest order — so no image is lost *in this branch*.  When at least one
token matches, images without tokens are not surfaced. -/
theorem resolver_trailing_section_surfaces_all (fs : String → Bool) (man : Manifest)
    (root pdfStem : String) (page? : Option ℕ) (html : String)
    (hzero : countPH html.toList = 0)
    (hne : ¬ (selectImages man page?).isEmpty) :
    embedImagesInline fs man root pdfStem page? html =
      html ++ figuresSection
        (buildEnv fs root pdfStem (selectImages man page?) page?).allImages ∧
    ∀ e ∈ (buildEnv fs root pdfStem (selectImages man page?) page?).allImages,
      SubSeg (figureHtml e ++ "\n").toList
        (embedImagesInline fs man root pdfStem page? html).toList := by
  have hmain : embedImagesInline fs man root pdfStem page? html =
      html ++ figuresSection
        (buildEnv fs root pdfStem (selectImages man page?) page?).allImages := by
    unfold embedImagesInline
    rw [if_neg hne]
    have hcount := scanSub_count (buildEnv fs root pdfStem (selectImages man page?) page?)
      html.toList ⟨[], 0⟩
    have hnot : ¬ 0 < (scanSub (buildEnv fs root pdfStem (selectImages man page?) page?)
        ⟨[], 0⟩ html.toList).2 := by
      rw [hcount, hzero]
      omega
    rw [if_neg hnot]
  refine ⟨hmain, ?_⟩
  intro e he
  rw [hmain]
  have htl : (html ++ figuresSection
      (buildEnv fs root pdfStem (selectImages man page?) page?).allImages).toList =
      html.toList ++ (figuresSection
        (buildEnv fs root pdfStem (selectImages man page?) page?).allImages).toList := by
    simp [String.toList]
  rw [htl]
  apply subSeg_append_left
  unfold figuresSection
  have htl2 : (("\n<hr/>\n<h2>Extracted Figures</h2>\n<div class=\"extracted-images\">\n" ++
      figuresBody (buildEnv fs root pdfStem (selectImages man page?) page?).allImages) ++
      ("</div>\n" : String)).toList =
      ("\n<hr/>\n<h2>Extracted Figures</h2>\n<div class=\"extracted-images\">\n" : String).toList ++
      (figuresBody (buildEnv fs root pdfStem (selectImages man page?) page?).allImages).toList ++
      ("</div>\n" : String).toList := by
    simp [String.toList]
  rw [htl2]
  apply subSeg_append_right
  apply subSeg_append_left
  exact figuresBody_subSeg he

/-- Witness for C5 (amended) on the fixture manifest: both images surface
in the trailing section of a token-free page. -/
theorem resolver_trailing_section_surfaces_all_witness :
    countPH ("<p>t</p>" : String).toList = 0 ∧
    ¬ (selectImages exManifest (some 1)).isEmpty = true ∧
    (embedImagesInline exImgFs exManifest "/r" "doc" (some 1) "<p>t</p>" =
      "<p>t</p>" ++ figuresSection
        (buildEnv exImgFs "/r" "doc" (selectImages exManifest (some 1)) (some 1)).allImages ∧
    ∀ e ∈ (buildEnv exImgFs "/r" "doc" (selectImages exManifest (some 1)) (some 1)).allImages,
      SubSeg (figureHtml e ++ "\n").toList
        (embedImagesInline exImgFs exManifest "/r" "doc" (some 1) "<p>t</p>").toList) :=
  ⟨by decide, by decide,
   resolver_trailing_section_surfaces_all exImgFs exManifest "/r" "doc" (some 1) "<p>t</p>"
     (by decide) (by decide)⟩

/-- **C3, counterexample.** Step (3) of the claimed resolution order says a
mismatched id consumes the next **unmatched** region of the page
(`fig_2` here, since `fig_1` was already consumed by an exact id match).
The code's positional counter counts only positional consumptions, so the
`bogus` token resolves to `fig_1` *again* and `fig_2` is never referenced. -/
theorem resolver_fallback_order_counterexample :
    embedImagesInline exImgFs exManifest "/r" "doc" (some 1)
        "<p>[IMAGE_PLACEHOLDER:fig_1:first]</p><p>[IMAGE_PLACEHOLDER:bogus:x]</p>" =
      "<p>" ++ exFig1Html ++ "</p><p>" ++ exFig1Html ++ "</p>" ∧
    ¬ SubSeg ("fig_2" : String).toList
      ("<p>" ++ exFig1Html ++ "</p><p>" ++ exFig1Html ++ "</p>" : String).toList := by
  refine ⟨by decide, by decide⟩

/-- **C3, amended.** For every placeholder token, the resolver tries, in
this order: (1) exact match of the id against a region's declared
identifier, (2) match against a region's filename stem, (3) positional
fallback taking the region at the page's *positional counter* in manifest
order — the counter advances only on positional consumptions and ignores
id- or stem-matched regions, so an already-matched region can be consumed
again — (4) global fallback taking the region at an independent *global
counter* in encounter order, and (5) otherwise the token is left
character-for-character unmodified; the whole-page pass applies this to
each match left to right (`SubstRel`). -/
theorem resolver_priority_chain (env : ResolveEnv) (s : SubCounters) (iid : String) :
    ((∃ e, dictGet env.imgMap iid = some e ∧ resolveEntry env s iid = (s, some e)) ∨
     (dictGet env.imgMap iid = none ∧
       ∃ e, dictGet env.fnMap iid = some e ∧ resolveEntry env s iid = (s, some e)) ∨
     (dictGet env.imgMap iid = none ∧ dictGet env.fnMap iid = none ∧
       ∃ (p : ℕ) (lst : List ImgEntry) (h : countersGet s.pageCounters p < lst.length),
         env.pageNum? = some p ∧ byPageGet env.byPage p = some lst ∧
         resolveEntry env s iid =
           (⟨(p, countersGet s.pageCounters p + 1) :: s.pageCounters, s.globalCounter⟩,
             some (lst.get ⟨countersGet s.pageCounters p, h⟩))) ∨
     (dictGet env.imgMap iid = none ∧ dictGet env.fnMap iid = none ∧
       (∀ (p : ℕ) (lst : List ImgEntry), env.pageNum? = some p →
         byPageGet env.byPage p = some lst → lst.length ≤ countersGet s.pageCounters p) ∧
       ∃ h : s.globalCounter < env.allImages.length,
         resolveEntry env s iid =
           (⟨s.pageCounters, s.globalCounter + 1⟩,
             some (env.allImages.get ⟨s.globalCounter, h⟩))) ∨
     (dictGet env.imgMap iid = none ∧ dictGet env.fnMap iid = none ∧
       (∀ (p : ℕ) (lst : List ImgEntry), env.pageNum? = some p →
         byPageGet env.byPage p = some lst → lst.length ≤ countersGet s.pageCounters p) ∧
       env.allImages.length ≤ s.globalCounter ∧
       resolveEntry env s iid = (s, none))) ∧
    (∀ (cs : List Char) (s0 : SubCounters),
      SubstRel env s0 cs (scanSub env s0 cs).1) := by
  constructor
  · rcases optionCases (dictGet env.imgMap iid) with ⟨e, h1⟩ | h1
    · exact Or.inl ⟨e, h1, resolveEntry_img h1⟩
    rcases optionCases (dictGet env.fnMap iid) with ⟨e, h2⟩ | h2
    · exact Or.inr (Or.inl ⟨h1, e, h2, resolveEntry_fn h1 h2⟩)
    rcases optionCases env.pageNum? with ⟨p, hp⟩ | hp
    · rcases optionCases (byPageGet env.byPage p) with ⟨lst, hl⟩ | hl
      · by_cases hidx : countersGet s.pageCounters p < lst.length
        · exact Or.inr (Or.inr (Or.inl
            ⟨h1, h2, p, lst, hidx, hp, hl, resolveEntry_pos h1 h2 hp hl hidx⟩))
        · have hnone : ∀ (p' : ℕ) (lst' : List ImgEntry), env.pageNum? = some p' →
              byPageGet env.byPage p' = some lst' →
              lst'.length ≤ countersGet s.pageCounters p' := by
            intro p' lst' hp' hl'
            rw [hp] at hp'
            injection hp' with hpe
            subst hpe
            rw [hl] at hl'
            injection hl' with hle2
            subst hle2
            omega
          by_cases hg : s.globalCounter < env.allImages.length
          · exact Or.inr (Or.inr (Or.inr (Or.inl
              ⟨h1, h2, hnone, hg, resolveEntry_posFail_glob h1 h2 hp hl hidx hg⟩)))
          · exact Or.inr (Or.inr (Or.inr (Or.inr
              ⟨h1, h2, hnone, by omega,
                resolveEntry_posFail_none h1 h2 hp hl hidx hg⟩)))
      · have hnone : ∀ (p' : ℕ) (lst' : List ImgEntry), env.pageNum? = some p' →
            byPageGet env.byPage p' = some lst' →
            lst'.length ≤ countersGet s.pageCounters p' := by
          intro p' lst' hp' hl'
          rw [hp] at hp'
          injection hp' with hpe
          subst hpe
          rw [hl] at hl'
          cases hl'
        by_cases hg : s.globalCounter < env.allImages.length
        · exact Or.inr (Or.inr (Or.inr (Or.inl
            ⟨h1, h2, hnone, hg, resolveEntry_noLst_glob h1 h2 hp hl hg⟩)))
        · exact Or.inr (Or.inr (Or.inr (Or.inr
            ⟨h1, h2, hnone, by omega, resolveEntry_noLst_none h1 h2 hp hl hg⟩)))
    · have hnone : ∀ (p' : ℕ) (lst' : List ImgEntry), env.pageNum? = some p' →
          byPageGet env.byPage p' = some lst' →
          lst'.length ≤ countersGet s.pageCounters p' := by
        intro p' lst' hp' hl'
        rw [hp] at hp'
        cases hp'
      by_cases hg : s.globalCounter < env.allImages.length
      · exact Or.inr (Or.inr (Or.inr (Or.inl
          ⟨h1, h2, hnone, hg, resolveEntry_noPage_glob h1 h2 hp hg⟩)))
      · exact Or.inr (Or.inr (Or.inr (Or.inr
          ⟨h1, h2, hnone, by omega, resolveEntry_noPage_none h1 h2 hp hg⟩)))
  · intro cs s0
    exact scanSub_substRel env cs s0

/-! ## Language/direction normalizer (`ensure_html_lang_dir`,
`backend/main.py` lines 504-659)

Each `re.sub` of the stripping pipeline and of the attribute rewriting is a
deterministic scanner.  `subAll` mirrors `re.sub`'s left-to-right,
non-overlapping traversal: a matcher receives the previous original
character (for `\b` word boundaries) and the current suffix, and returns
the matched span length plus its replacement.  Fuel keeps the recursion
structural (any fuel above the input length is enough, since every step
consumes at least one character). -/

def subAllF (tryM : Option Char → List Char → Option (ℕ × List Char)) :
    ℕ → Option Char → List Char → List Char
  | 0, _, _ => []
  | _ + 1, _, [] => []
  | fuel + 1, prev, c :: cs =>
    match tryM prev (c :: cs) with
    | some (n, rep) =>
      rep ++ subAllF tryM fuel ((c :: cs).take n).getLast? ((c :: cs).drop n)
    | none => c :: subAllF tryM fuel (some c) cs

def subAll (tryM : Option Char → List Char → Option (ℕ × List Char))
    (cs : List Char) : List Char :=
  subAllF tryM (cs.length + 1) none cs

/-- `re.search` as a Bool: does the positional matcher succeed at any
suffix (including the empty one)? -/
def searchF (tryM : List Char → Bool) : List Char → Bool
  | [] => tryM []
  | c :: cs => tryM (c :: cs) || searchF tryM cs

/-- `re.sub(..., count=1)`: rewrite only the first match. -/
def subFirstF (tryM : List Char → Option (ℕ × List Char)) :
    ℕ → List Char → List Char
  | 0, _ => []
  | _ + 1, [] => []
  | fuel + 1, c :: cs =>
    match tryM (c :: cs) with
    | some (n, rep) => rep ++ (c :: cs).drop n
    | none => c :: subFirstF tryM fuel cs

def subFirst (tryM : List Char → Option (ℕ × List Char)) (cs : List Char) : List Char :=
  subFirstF tryM (cs.length + 1) cs

def charAt (l : List Char) (i : ℕ) : Char := l.getD i ' '

/-- `<script[^>]*>.*?</script>` / `<style[^>]*>.*?</style>`
(IGNORECASE, DOTALL): the literal opener, a maximal non-`>` run, `>`,
then the nearest closing literal. -/
def blockTry (openLit closeLit : List Char) (_ : Option Char) (cs : List Char) :
    Option (ℕ × List Char) :=
  match stripLitCI openLit cs with
  | none => none
  | some r1 =>
    let attrs := r1.takeWhile (fun c => !(c = '>'))
    match r1.drop attrs.length with
    | '>' :: r2 =>
      match segIdxCI closeLit r2 with
      | some i => some (openLit.length + attrs.length + 1 + i + closeLit.length, [])
      | none => none
    | _ => none

/-- `https?://\S+` (IGNORECASE). -/
def urlTry (_ : Option Char) (cs : List Char) : Option (ℕ × List Char) :=
  match stripLitCI "http".toList cs with
  | none => none
  | some r1 =>
    let sN : ℕ := match r1 with
      | c :: _ => if c.toLower = 's' then 1 else 0
      | [] => 0
    let r2 := r1.drop sN
    match stripLit "://".toList r2 with
    | none => none
    | some r3 =>
      let run := r3.takeWhile (fun c => !c.isWhitespace)
      if run.length = 0 then none
      else some (4 + sN + 3 + run.length, [])

/-- `\S+@\S+\.\S+`: a match starting here spans the whole maximal
non-space run, and exists iff the run has an `@` at position `j ≥ 1` and a
`.` at some position in `[j+2, len-2]`. -/
def emailTry (_ : Option Char) (cs : List Char) : Option (ℕ × List Char) :=
  match cs with
  | [] => none
  | c :: _ =>
    if c.isWhitespace then none
    else
      let run := cs.takeWhile (fun c => !c.isWhitespace)
      let m := run.length
      if (List.range m).any (fun j =>
          decide (1 ≤ j) && (charAt run j == '@') &&
          ((List.range m).any (fun k =>
            decide (j + 2 ≤ k) && decide (k + 1 < m) && (charAt run k == '.')))) then
        some (m, [])
      else none

/-- `<[^>]+>`. -/
def tagTry (_ : Option Char) (cs : List Char) : Option (ℕ × List Char) :=
  match cs with
  | '<' :: r =>
    let mid := r.takeWhile (fun c => !(c = '>'))
    if mid.length = 0 then none
    else
      match r.drop mid.length with
      | '>' :: _ => some (1 + mid.length + 1, [])
      | _ => none
  | _ => none

/-- `\$\$.*?\$\$` (DOTALL). -/
def displayMathTry (_ : Option Char) (cs : List Char) : Option (ℕ × List Char) :=
  match stripLit "$$".toList cs with
  | none => none
  | some r =>
    match segIdx "$$".toList r with
    | some i => some (2 + i + 2, [])
    | none => none

/-- `\$.*?\$` (no DOTALL: the closing `$` must come before any newline). -/
def inlineMathTry (_ : Option Char) (cs : List Char) : Option (ℕ × List Char) :=
  match cs with
  | '$' :: r =>
    let pre := r.takeWhile (fun c => !(c = '$') && !(c = '\n'))
    match r.drop pre.length with
    | '$' :: _ => some (1 + pre.length + 1, [])
    | _ => none
  | _ => none

/-- `\\[a-z]+\{[^}]*\}` (IGNORECASE). -/
def latexBraceTry (_ : Option Char) (cs : List Char) : Option (ℕ × List Char) :=
  match cs with
  | '\\' :: r =>
    let letters := r.takeWhile Char.isAlpha
    if letters.length = 0 then none
    else
      match r.drop letters.length with
      | '\x7b' :: r3 =>
        let inner := r3.takeWhile (fun c => !(c = '\x7d'))
        match r3.drop inner.length with
        | '\x7d' :: _ => some (1 + letters.length + 1 + inner.length + 1, [])
        | _ => none
      | _ => none
  | _ => none

/-- `\\[a-z]+` (IGNORECASE). -/
def latexCmdTry (_ : Option Char) (cs : List Char) : Option (ℕ × List Char) :=
  match cs with
  | '\\' :: r =>
    let letters := r.takeWhile Char.isAlpha
    if letters.length = 0 then none else some (1 + letters.length, [])
  | _ => none

def isArabicChar (c : Char) : Bool :=
  (0x600 ≤ c.toNat && c.toNat ≤ 0x6FF) || (0x750 ≤ c.toNat && c.toNat ≤ 0x77F) ||
    (0x8A0 ≤ c.toNat && c.toNat ≤ 0x8FF)

/-- Python `\w` restricted to the scripts this pipeline handles (ASCII
letters/digits, underscore, and the Arabic ranges the detector counts). -/
def isWordChar (c : Char) : Bool := c.isAlphanum || c = '_' || isArabicChar c

def wordOpt : Option Char → Bool
  | none => false
  | some c => isWordChar c

/-- `\b`: exactly one side is a word character. -/
def atBoundary (a b : Option Char) : Bool := wordOpt a != wordOpt b

def numOpClass (c : Char) : Bool :=
  c.isDigit || c = '+' || c = '-' || c = '*' || c = '/' || c = '=' || c = '<' || c = '>'

/-- `\b[\d\+\-\*/=<>]+\b`: boundary, then the longest class-run prefix
whose end also sits on a boundary. -/
def numOpsTry (prev : Option Char) (cs : List Char) : Option (ℕ × List Char) :=
  match cs with
  | [] => none
  | c :: _ =>
    if !(atBoundary prev (some c)) then none
    else
      let run := cs.takeWhile numOpClass
      let m := run.length
      if m = 0 then none
      else
        match ((List.range (m + 1)).reverse.find? (fun j =>
            decide (1 ≤ j) && atBoundary (some (charAt cs (j - 1))) cs[j]?)) with
        | some j => some (j, [])
        | none => none

/-- `\b(DOI|ISSN|ISBN)[\s:]*[\d\-X]+` (IGNORECASE). -/
def doiTry (prev : Option Char) (cs : List Char) : Option (ℕ × List Char) :=
  match cs with
  | [] => none
  | c :: _ =>
    if !(atBoundary prev (some c)) then none
    else
      let lit? : Option ℕ :=
        match stripLitCI "DOI".toList cs with
        | some _ => some 3
        | none =>
          match stripLitCI "ISSN".toList cs with
          | some _ => some 4
          | none =>
            match stripLitCI "ISBN".toList cs with
            | some _ => some 4
            | none => none
      match lit? with
      | none => none
      | some litLen =>
        let r1 := cs.drop litLen
        let ws := r1.takeWhile (fun c => c.isWhitespace || c = ':')
        let r2 := r1.drop ws.length
        let ds := r2.takeWhile (fun c => c.isDigit || c = '-' || c.toLower = 'x')
        if ds.length = 0 then none
        else some (litLen + ws.length + ds.length, [])

/-- The stripping pipeline of lines 522-552, in source order: scripts,
styles, URLs, emails, HTML tags, display math, inline math, LaTeX
commands with and without braces, standalone number/operator runs,
and DOI/ISSN/ISBN citation tokens. -/
def stripPipeline (html : List Char) : List Char :=
  let s1 := subAll (blockTry "<script".toList "</script>".toList) html
  let s2 := subAll (blockTry "<style".toList "</style>".toList) s1
  let s3 := subAll urlTry s2
  let s4 := subAll emailTry s3
  let s5 := subAll tagTry s4
  let s6 := subAll displayMathTry s5
  let s7 := subAll inlineMathTry s6
  let s8 := subAll latexBraceTry s7
  let s9 := subAll latexCmdTry s8
  let s10 := subAll numOpsTry s9
  subAll doiTry s10

/-- Lines 558-581: count Arabic vs Latin letters in the stripped content
and pick `("ar", "rtl")` only when Arabic strictly dominates. -/
def detectLangDir (html : String) : String × String :=
  let content := stripPipeline html.toList
  let arabicChars := content.countP isArabicChar
  let latinChars := content.countP Char.isAlpha
  if arabicChars + latinChars = 0 then ("en", "ltr")
  else if latinChars < arabicChars then ("ar", "rtl")
  else ("en", "ltr")

/-- The continuation `ATTR=` plus a value matcher, returning the total
consumed length after the whitespace character. -/
def attrValTot (attrLit : List Char) (valMatch : List Char → Option ℕ)
    (rest : List Char) : Option ℕ :=
  match stripLitCI (attrLit ++ ['=']) rest with
  | none => none
  | some r2 => (valMatch r2).map (fun k => attrLit.length + 1 + k)

/-- `["\']?[a-z]{2}["\']?` (IGNORECASE): optional quote, two ASCII
letters, optional quote. -/
def langValMatch (r : List Char) : Option ℕ :=
  let q1 : ℕ := match r with
    | '"' :: _ => 1
    | '\'' :: _ => 1
    | _ => 0
  match r.drop q1 with
  | a :: b :: t =>
    if a.isAlpha && b.isAlpha then
      let q2 : ℕ := match t with
        | '"' :: _ => 1
        | '\'' :: _ => 1
        | _ => 0
      some (q1 + 2 + q2)
    else none
  | _ => none

/-- `["\']?(ltr|rtl)["\']?` (IGNORECASE). -/
def dirValMatch (r : List Char) : Option ℕ :=
  let q1 : ℕ := match r with
    | '"' :: _ => 1
    | '\'' :: _ => 1
    | _ => 0
  let r1 := r.drop q1
  let v? : Option (List Char) :=
    match stripLitCI "ltr".toList r1 with
    | some t => some t
    | none => stripLitCI "rtl".toList r1
  match v? with
  | none => none
  | some t =>
    let q2 : ℕ := match t with
      | '"' :: _ => 1
      | '\'' :: _ => 1
      | _ => 0
    some (q1 + 3 + q2)

/-- `(?i)<TAG[^>]*\sATTR=` as a Bool: after the tag literal, within the
non-`>` run, some whitespace character is directly followed by `ATTR=`. -/
def attrInRun (attrLit : List Char) : List Char → Bool
  | [] => false
  | c :: r =>
    if c = '>' then false
    else
      (c.isWhitespace && (stripLitCI (attrLit ++ ['=']) r).isSome) || attrInRun attrLit r

def tagAttrSearchTry (tagLit attrLit : List Char) (cs : List Char) : Bool :=
  match stripLitCI tagLit cs with
  | none => false
  | some r1 => attrInRun attrLit r1

def searchTagAttr (tagLit attrLit cs : List Char) : Bool :=
  searchF (tagAttrSearchTry tagLit attrLit) cs

/-- One replacement step of
`(?i)(<TAG[^>]*\s)ATTR=<value>` → `\1ATTR="newVal"`: the greedy `[^>]*`
picks the **last** whitespace in the tag's non-`>` run from which
`ATTR=<value>` matches; group 1 (everything up to and including that
whitespace) is kept with its original spelling. -/
def tagAttrReplTry (tagLit attrLit : List Char) (valMatch : List Char → Option ℕ)
    (newVal : List Char) (_ : Option Char) (cs : List Char) : Option (ℕ × List Char) :=
  match stripLitCI tagLit cs with
  | none => none
  | some r1 =>
    let run := r1.takeWhile (fun c => !(c = '>'))
    match ((List.range run.length).reverse.find? (fun j =>
        (charAt r1 j).isWhitespace &&
        (attrValTot attrLit valMatch (r1.drop (j + 1))).isSome)) with
    | none => none
    | some j =>
      match attrValTot attrLit valMatch (r1.drop (j + 1)) with
      | none => none
      | some v =>
        some (tagLit.length + j + 1 + v,
          cs.take (tagLit.length + j + 1) ++ attrLit ++ '=' :: '"' :: newVal ++ ['"'])

def replaceTagAttrAll (tagLit attrLit : List Char) (valMatch : List Char → Option ℕ)
    (newVal : List Char) (cs : List Char) : List Char :=
  subAll (tagAttrReplTry tagLit attrLit valMatch newVal) cs

/-- `(?i)(<TAG)([^>]*)(>)` → `\1 ATTR="VAL"\2\3`, count = 1. -/
def addTagAttrTry (tagLit attrText : List Char) (cs : List Char) :
    Option (ℕ × List Char) :=
  match stripLitCI tagLit cs with
  | none => none
  | some r1 =>
    let run := r1.takeWhile (fun c => !(c = '>'))
    match r1.drop run.length with
    | '>' :: _ => some (tagLit.length + run.length + 1,
        cs.take tagLit.length ++ attrText ++ run ++ ['>'])
    | _ => none

def addTagAttrFirst (tagLit attrText cs : List Char) : List Char :=
  subFirst (addTagAttrTry tagLit attrText) cs

/-- The attribute-rewriting phase (lines 587-658): fix `lang` then `dir`
on `<html>` (presence checks made on the original content), then fix
`dir` on `<body>` (presence check made on the already-updated content).
Existing values are replaced only when they have the standard shape the
patterns expect (two-letter `lang`, `ltr`/`rtl` `dir`); otherwise the
add-branch appends a fresh attribute and a nonstandard value survives. -/
def applyLangDir (html : String) (lang dir : String) : String :=
  let cs := html.toList
  let hasHtml := searchF (fun suf => (stripLitCI "<html".toList suf).isSome) cs
  let hasHtmlLang := searchTagAttr "<html".toList "lang".toList cs
  let hasHtmlDir := searchTagAttr "<html".toList "dir".toList cs
  let cs1 := if hasHtml then
      (if hasHtmlLang then
        replaceTagAttrAll "<html".toList "lang".toList langValMatch lang.toList cs
      else
        addTagAttrFirst "<html".toList (' ' :: ("lang=\"" ++ lang ++ "\"").toList) cs)
    else cs
  let cs2 := if hasHtml then
      (if hasHtmlDir then
        replaceTagAttrAll "<html".toList "dir".toList dirValMatch dir.toList cs1
      else
        addTagAttrFirst "<html".toList (' ' :: ("dir=\"" ++ dir ++ "\"").toList) cs1)
    else cs1
  let hasBodyDir := searchTagAttr "<body".toList "dir".toList cs2
  let hasBody := searchF (fun suf => (stripLitCI "<body".toList suf).isSome) cs2
  let cs3 := if hasBody then
      (if hasBodyDir then
        replaceTagAttrAll "<body".toList "dir".toList dirValMatch dir.toList cs2
      else
        addTagAttrFirst "<body".toList (' ' :: ("dir=\"" ++ dir ++ "\"").toList) cs2)
    else cs2
  String.mk cs3

/-- `ensure_html_lang_dir`: detect, then rewrite both tags. -/
def ensureHtmlLangDir (html : String) : String :=
  applyLangDir html (detectLangDir html).1 (detectLangDir html).2

/-- **C10, counterexample.** The claim says the normalizer *always*
overwrites existing `lang`/`dir` attributes with its own detection.  But
the replacement pattern for `dir` only matches the values `ltr`/`rtl`:
on `<html lang="en" dir="xyz">` the detection says `("en", "ltr")`, the
`dir=` presence check succeeds, the replace regex finds nothing, and the
nonstandard `dir="xyz"` survives in the output. -/
theorem lang_dir_overwrite_counterexample :
    detectLangDir "<html lang=\"en\" dir=\"xyz\"><body>hello</body></html>" = ("en", "ltr") ∧
    ensureHtmlLangDir "<html lang=\"en\" dir=\"xyz\"><body>hello</body></html>" =
      "<html lang=\"en\" dir=\"xyz\"><body dir=\"ltr\">hello</body></html>" ∧
    SubSeg ("dir=\"xyz\"" : String).toList
      (ensureHtmlLangDir "<html lang=\"en\" dir=\"xyz\"><body>hello</body></html>").toList := by
  refine ⟨by decide, by decide, by decide⟩

/-- **C10, amended.** The normalizer detects a language/direction pair and
rewrites the `lang`/`dir` attributes of `<html>` and `<body>` with it,
overwriting existing values only when they have the standard shape the
replace patterns expect (two-letter `lang`; `ltr`/`rtl` `dir`, optionally
quoted) — shown here for both standard `dir` values — and the detection
chooses `("ar", "rtl")` iff strictly more Arabic than Latin letters remain
after the strip pipeline, which besides scripts, styles, URLs, emails,
tags, math and LaTeX commands also strips standalone number/operator runs
and `DOI`/`ISSN`/`ISBN` citation tokens; ties and letterless content give
`("en", "ltr")`. -/
theorem lang_dir_normalizer_amended (html : String) :
    ensureHtmlLangDir html =
      applyLangDir html (detectLangDir html).1 (detectLangDir html).2 ∧
    (detectLangDir html = ("ar", "rtl") ↔
      (stripPipeline html.toList).countP Char.isAlpha <
        (stripPipeline html.toList).countP isArabicChar) ∧
    (detectLangDir html = ("en", "ltr") ↔
      (stripPipeline html.toList).countP isArabicChar ≤
        (stripPipeline html.toList).countP Char.isAlpha) ∧
    (∀ d1 ∈ (["ltr", "rtl"] : List String),
      applyLangDir
          ("<html lang=\"en\" dir=\"" ++ d1 ++ "\"><body dir=\"" ++ d1 ++
            "\">text</body></html>") "ar" "rtl" =
        "<html lang=\"ar\" dir=\"rtl\"><body dir=\"rtl\">text</body></html>") := by
  refine ⟨rfl, ?_, ?_, ?_⟩
  · unfold detectLangDir
    dsimp only
    split_ifs with h0 h1
    · constructor
      · intro h; exact absurd h (by decide)
      · intro h; omega
    · constructor
      · intro _; exact h1
      · intro _; rfl
    · constructor
      · intro h; exact absurd h (by decide)
      · intro h; exact absurd h h1
  · unfold detectLangDir
    dsimp only
    split_ifs with h0 h1
    · constructor
      · intro _; omega
      · intro _; rfl
    · constructor
      · intro h; exact absurd h (by decide)
      · intro h; omega
    · constructor
      · intro _; omega
      · intro _; rfl
  · intro d1 hd1
    fin_cases hd1 <;> decide

/-- Witness for C10 (amended) at concrete inputs. -/
theorem lang_dir_normalizer_amended_witness :
    applyLangDir
        ("<html lang=\"en\" dir=\"" ++ "ltr" ++ "\"><body dir=\"" ++ "ltr" ++
          "\">text</body></html>") "ar" "rtl" =
      "<html lang=\"ar\" dir=\"rtl\"><body dir=\"rtl\">text</body></html>" ∧
    (detectLangDir "abc" = ("en", "ltr") ↔
      (stripPipeline ("abc" : String).toList).countP isArabicChar ≤
        (stripPipeline ("abc" : String).toList).countP Char.isAlpha) :=
  ⟨(lang_dir_normalizer_amended "x").2.2.2 "ltr" (by decide),
   (lang_dir_normalizer_amended "abc").2.2.1⟩

/-! ## Document assembler (`convert_pdf_end_to_end.py`, lines 164-289)

Per-page HTML files are combined into one document: files are sorted by
the page number extracted from the `_page_(\d+)` filename pattern, each
page's `lang`/`dir`/`<head>`/`<body>` are parsed out of its text, every
page body is wrapped in a `<div class="page">` carrying that page's own
attributes, and the first page's detection becomes the document default
(falling back to `lang="en" dir="ltr"`).  Failed pages never produced a
file, so they simply do not appear in the input list. -/

/-- `page_sort_key`: `int(re.search(r'_page_(\d+)', stem).group(1))`,
defaulting to 0 when the pattern is absent. -/
def pageSortKey (stem : String) : ℕ :=
  match searchNumTag "_page_".toList stem.toList with
  | some n => n
  | none => 0

/-- `(?is)<html([^>]*)>`: attribute text of the first complete html tag. -/
def findTagAttrs (tagLit : List Char) : List Char → Option (List Char)
  | [] => none
  | c :: cs =>
    match stripLitCI tagLit (c :: cs) with
    | some r =>
      let run := r.takeWhile (fun c => !(c = '>'))
      match r.drop run.length with
      | '>' :: _ => some run
      | _ => findTagAttrs tagLit cs
    | none => findTagAttrs tagLit cs

/-- Group of `lang=["\']?([a-z]{2})["\']?`: two letters, spelling kept. -/
def langGroup (r : List Char) : Option (List Char) :=
  let r1 := match r with
    | '"' :: t => t
    | '\'' :: t => t
    | _ => r
  match r1 with
  | a :: b :: _ => if a.isAlpha && b.isAlpha then some [a, b] else none
  | _ => none

/-- Group of `dir=["\']?(ltr|rtl)["\']?` (IGNORECASE), spelling kept. -/
def dirGroup (r : List Char) : Option (List Char) :=
  let r1 := match r with
    | '"' :: t => t
    | '\'' :: t => t
    | _ => r
  match r1 with
  | a :: b :: c :: _ =>
    if [a.toLower, b.toLower, c.toLower] = ['l', 't', 'r'] ∨
        [a.toLower, b.toLower, c.toLower] = ['r', 't', 'l'] then
      some [a, b, c]
    else none
  | _ => none

/-- `re.search` for `ATTR=` followed by the group pattern, leftmost. -/
def searchAttrVal (attrLit : List Char) (group : List Char → Option (List Char)) :
    List Char → Option (List Char)
  | [] => none
  | c :: cs =>
    match stripLitCI (attrLit ++ ['=']) (c :: cs) with
    | some r =>
      match group r with
      | some v => some v
      | none => searchAttrVal attrLit group cs
    | none => searchAttrVal attrLit group cs

/-- `(?is)<TAG.*?>(.*?)</TAG>`: the content between the first full opening
tag and the nearest closing literal after it; on failure the scan resumes
at later occurrences of the opening literal. -/
def tagContentGroup (openLit closeLit : List Char) : List Char → Option (List Char)
  | [] => none
  | c :: cs =>
    match stripLitCI openLit (c :: cs) with
    | some r =>
      let pre := r.takeWhile (fun c => !(c = '>'))
      match r.drop pre.length with
      | '>' :: r2 =>
        match segIdxCI closeLit r2 with
        | some i => some (r2.take i)
        | none => tagContentGroup openLit closeLit cs
      | _ => tagContentGroup openLit closeLit cs
    | none => tagContentGroup openLit closeLit cs

structure PageParse where
  lang? : Option String
  dir? : Option String
  headHtml : String
  bodyHtml : String
  deriving Repr, DecidableEq

/-- Lines 199-221: per-page parsing of the html-tag attributes, `<head>`
content (used only for the first page) and `<body>` content (the whole
text when no body tag parses). -/
def parsePageText (txt : String) : PageParse :=
  let attrs? := findTagAttrs "<html".toList txt.toList
  let lang? := match attrs? with
    | some attrs => (searchAttrVal "lang".toList langGroup attrs).map String.mk
    | none => none
  let dir? := match attrs? with
    | some attrs => (searchAttrVal "dir".toList dirGroup attrs).map String.mk
    | none => none
  let headH := match tagContentGroup "<head".toList "</head>".toList txt.toList with
    | some g => String.mk g
    | none => ""
  let bodyH := match tagContentGroup "<body".toList "</body>".toList txt.toList with
    | some g => String.mk g
    | none => txt
  ⟨lang?, dir?, headH, bodyH⟩

/-- Lines 223-233: wrap one page's body in its scoped container, carrying
only the attributes that page actually declared. -/
def pageDivOf (p : PageParse) : String :=
  let attrs :=
    (match p.lang? with
      | some l => ["lang=\"" ++ l ++ "\""]
      | none => []) ++
    (match p.dir? with
      | some d => ["dir=\"" ++ d ++ "\""]
      | none => [])
  let attrsStr := if attrs.isEmpty then "" else " " ++ String.intercalate " " attrs
  "<div class=\"page\"" ++ attrsStr ++ ">\n" ++ p.bodyHtml ++ "\n</div>"

structure CombineSt where
  docLang : String
  docDir : String
  headHtml : String
  divs : List String
  deriving Repr, DecidableEq

/-- One iteration of the page loop (lines 184-233): the first page (and
only it) sets the document defaults and the shared head; every page
appends its own div. -/
def combineStep (st : CombineSt) (i : ℕ) (p : PageParse) : CombineSt :=
  let st1 := if i = 0 then
      { docLang := p.lang?.getD "en", docDir := p.dir?.getD "ltr",
        headHtml := p.headHtml, divs := st.divs }
    else st
  { st1 with divs := st1.divs ++ [pageDivOf p] }

def combineLoop : ℕ → CombineSt → List PageParse → CombineSt
  | _, st, [] => st
  | i, st, p :: ps => combineLoop (i + 1) (combineStep st i p) ps

/-- The literal chunk the source splices between the first page's head
content and the joined page divs (the `<style>` block of lines 238-283
followed by `</head>\n<body>\n`). -/
def pageCssChunk : String :=
  "\n<style>\n/* Page container styling - each page is independent and creates a page break */\n.page \x7b\n    page-break-after: always;\n    break-after: page;\n    margin: 0 auto 2em auto;\n    padding: 2em;\n    max-width: 21cm;\n    min-height: 29.7cm;\n    background: white;\n    box-sizing: border-box;\n\x7d\n\n/* Remove page break after the last page */\n.page:last-child \x7b\n    page-break-after: avoid;\n    break-after: avoid;\n\x7d\n\n/* Print-specific styling to ensure proper page breaks */\n@media print \x7b\n    .page \x7b\n        margin: 0;\n        padding: 2cm;\n        max-width: 100%;\n        min-height: 100vh;\n        page-break-after: always;\n        break-after: page;\n    \x7d\n    .page:last-child \x7b\n        page-break-after: avoid;\n        break-after: avoid;\n    \x7d\n\x7d\n\n/* Screen view: add visual separation between pages */\n@media screen \x7b\n    .page \x7b\n        box-shadow: 0 2px 8px rgba(0,0,0,0.1);\n        border: 1px solid #e0e0e0;\n    \x7d\n    .page:not(:last-child) \x7b\n        margin-bottom: 2em;\n    \x7d\n\x7d\n</style>\n</head>\n<body>\n"

/-- Lines 237-284: the combined document string. -/
def combinedDocHtml (ps : List PageParse) : String :=
  let st := combineLoop 0 ⟨"en", "ltr", "", []⟩ ps
  "<!DOCTYPE html>\n<html lang=\"" ++ st.docLang ++ "\" dir=\"" ++ st.docDir ++
    "\">\n<head>" ++ st.headHtml ++ pageCssChunk ++
    String.intercalate "\n" st.divs ++ "\n</body>\n</html>"

def pageKeyLe (a b : ℕ × PageParse) : Prop := a.1 ≤ b.1

instance : DecidableRel pageKeyLe := fun a b => Nat.decLe a.1 b.1

instance : IsTotal (ℕ × PageParse) pageKeyLe := ⟨fun a b => Nat.le_total a.1 b.1⟩

instance : IsTrans (ℕ × PageParse) pageKeyLe := ⟨fun _ _ _ => Nat.le_trans⟩

/-- Python's stable `sorted(page_files, key=page_sort_key)`; on the
distinct keys produced by the `_page_<n>` filenames the stable sort and
insertion sort agree (the sorted permutation is unique). -/
def sortParsed (pages : List (ℕ × PageParse)) : List (ℕ × PageParse) :=
  List.insertionSort pageKeyLe pages

/-- File-level assembler: sort by the filename key, parse, combine
(`none` models the `page_files` empty case, where the caller just copies
the whole-document output instead). -/
def combinePageFiles (files : List (String × String)) : Option String :=
  let sorted := List.insertionSort
    (fun a b => pageSortKey a.1 ≤ pageSortKey b.1) files
  match sorted with
  | [] => none
  | _ => some (combinedDocHtml (sorted.map (fun f => parsePageText f.2)))

lemma combineLoop_pos : ∀ (ps : List PageParse) (i : ℕ) (st : CombineSt), 1 ≤ i →
    combineLoop i st ps = { st with divs := st.divs ++ ps.map pageDivOf } := by
  intro ps
  induction ps with
  | nil => intro i st hi; simp [combineLoop]
  | cons p ps ih =>
    intro i st hi
    have hi0 : ¬ (i = 0) := by omega
    rw [combineLoop, ih (i + 1) _ (by omega)]
    simp [combineStep, hi0, List.append_assoc]

/-- **C2.** In per-page mode, for any set of per-page artifacts (in any
worker completion order) with pairwise-distinct page indices, the
assembler sorts them into strictly ascending index order while keeping
exactly one scoped region per produced page; each page's body is wrapped
in its own `<div class="page">` carrying that page's own detected
`lang`/`dir` attributes, and the document-level `<html>` wrapper takes the
first page's detection as the default, falling back to
`lang="en" dir="ltr"` when the first page declares none.  A failed page
produced no artifact file, so it is simply absent from the input list —
omitted, never interleaved. -/
theorem assembler_ordered_scoped_regions (pages : List (ℕ × PageParse))
    (hnd : pages.Pairwise (fun a b => a.1 ≠ b.1)) (hne : pages ≠ []) :
    (sortParsed pages).Perm pages ∧
    ((sortParsed pages).map Prod.fst).Pairwise (· < ·) ∧
    ((sortParsed pages).map Prod.snd).length = pages.length ∧
    ∃ hd tl, (sortParsed pages).map Prod.snd = hd :: tl ∧
      combineLoop 0 ⟨"en", "ltr", "", []⟩ (hd :: tl) =
        ⟨hd.lang?.getD "en", hd.dir?.getD "ltr", hd.headHtml,
          (hd :: tl).map pageDivOf⟩ ∧
      combinedDocHtml (hd :: tl) =
        "<!DOCTYPE html>\n<html lang=\"" ++ hd.lang?.getD "en" ++ "\" dir=\"" ++
          hd.dir?.getD "ltr" ++ "\">\n<head>" ++ hd.headHtml ++ pageCssChunk ++
          String.intercalate "\n" ((hd :: tl).map pageDivOf) ++
          "\n</body>\n</html>" := by
  have hperm : (sortParsed pages).Perm pages := List.perm_insertionSort pageKeyLe pages
  refine ⟨hperm, ?_, ?_, ?_⟩
  · have hsorted : (sortParsed pages).Pairwise pageKeyLe :=
      List.sorted_insertionSort pageKeyLe pages
    have hne2 : (sortParsed pages).Pairwise (fun a b => a.1 ≠ b.1) :=
      (List.Perm.pairwise_iff (fun hxy => Ne.symm hxy) hperm).mpr hnd
    rw [List.pairwise_map]
    exact (hsorted.and hne2).imp (fun h => lt_of_le_of_ne h.1 h.2)
  · rw [List.length_map]
    exact hperm.length_eq
  · cases hs : (sortParsed pages).map Prod.snd with
    | nil =>
      exfalso
      have hempty : sortParsed pages = [] := by
        cases hsp : sortParsed pages with
        | nil => rfl
        | cons a l => rw [hsp] at hs; simp at hs
      rw [hempty] at hperm
      exact hne hperm.nil_eq.symm
    | cons hd tl =>
      have hcl : combineLoop 0 ⟨"en", "ltr", "", []⟩ (hd :: tl) =
          ⟨hd.lang?.getD "en", hd.dir?.getD "ltr", hd.headHtml,
            (hd :: tl).map pageDivOf⟩ := by
        rw [combineLoop, combineLoop_pos tl 1 _ (by omega)]
        simp [combineStep]
      refine ⟨hd, tl, rfl, hcl, ?_⟩
      unfold combinedDocHtml
      rw [hcl]

/-- Witness for C2: three pages arriving out of order. -/
theorem assembler_ordered_scoped_regions_witness :
    (sortParsed [(2, ⟨some "en", some "ltr", "H2", "B2"⟩),
        (1, ⟨some "ar", some "rtl", "H1", "B1"⟩), (3, ⟨none, none, "H3", "B3"⟩)]).Perm
      [(2, ⟨some "en", some "ltr", "H2", "B2"⟩),
        (1, ⟨some "ar", some "rtl", "H1", "B1"⟩), (3, ⟨none, none, "H3", "B3"⟩)] ∧
    ((sortParsed [(2, ⟨some "en", some "ltr", "H2", "B2"⟩),
        (1, ⟨some "ar", some "rtl", "H1", "B1"⟩),
        (3, ⟨none, none, "H3", "B3"⟩)]).map Prod.fst).Pairwise (· < ·) ∧
    ((sortParsed [(2, ⟨some "en", some "ltr", "H2", "B2"⟩),
        (1, ⟨some "ar", some "rtl", "H1", "B1"⟩),
        (3, ⟨none, none, "H3", "B3"⟩)]).map Prod.snd).length = 3 ∧
    ∃ hd tl, (sortParsed [(2, ⟨some "en", some "ltr", "H2", "B2"⟩),
        (1, ⟨some "ar", some "rtl", "H1", "B1"⟩),
        (3, ⟨none, none, "H3", "B3"⟩)]).map Prod.snd = hd :: tl ∧
      combineLoop 0 ⟨"en", "ltr", "", []⟩ (hd :: tl) =
        ⟨hd.lang?.getD "en", hd.dir?.getD "ltr", hd.headHtml,
          (hd :: tl).map pageDivOf⟩ ∧
      combinedDocHtml (hd :: tl) =
        "<!DOCTYPE html>\n<html lang=\"" ++ hd.lang?.getD "en" ++ "\" dir=\"" ++
          hd.dir?.getD "ltr" ++ "\">\n<head>" ++ hd.headHtml ++ pageCssChunk ++
          String.intercalate "\n" ((hd :: tl).map pageDivOf) ++
          "\n</body>\n</html>" :=
  assembler_ordered_scoped_regions
    [(2, ⟨some "en", some "ltr", "H2", "B2"⟩),
      (1, ⟨some "ar", some "rtl", "H1", "B1"⟩), (3, ⟨none, none, "H3", "B3"⟩)]
    (by decide) (by decide)

end OCRSpec
